import Mathlib

/-!
Shallow embedding of `BitArray.hpp` (class `BitArray<Block=uint64_t>`) from the
NeuronsXnets repository, together with proofs about its operations.

The C++ class is a dynamic bit array stored as a vector of 64-bit blocks
(`bits_per_block = 64` for the `uint64_t` instantiation used throughout the
repository).  Machine integers are modelled as `Nat` with explicit reduction
modulo `2 ^ 64`:

* `uint64_t` block values are naturals `< 2 ^ 64`; a left shift truncates with
  `% 2 ^ 64`, and `~x` is `(2 ^ 64 - 1) ^^^ x`.
* `size_t` subtraction, which may wrap around in the C++ code, is modelled by
  `ssub a b = (a + 2 ^ 64 - b) % 2 ^ 64`.  A `uint64_t` shift whose count is
  one of these wrapped (astronomically large) values yields `0` in the value
  semantics used here (`x <<< s % 2 ^ 64 = 0` and `x >>> s = 0` for `s ≥ 64`).
-/

/-- `2 ^ 64`, the modulus of `uint64_t` / `size_t` arithmetic. -/
def M64 : Nat := 2 ^ 64

/-- `~static_cast<block_type>(0)`, the all-ones 64-bit block. -/
def allOnes64 : Nat := 2 ^ 64 - 1

/-- `uint64_t` left shift: shift then truncate to 64 bits.  The shift count
may be a wrapped `size_t` value of order `2 ^ 64`; the result is then `0`,
which agrees with `(x <<< s) % 2 ^ 64` (see `shl64_eq`) but stays
computable. -/
def shl64 (x s : Nat) : Nat := if 64 ≤ s then 0 else (x <<< s) % M64

/-- `uint64_t` right shift of a block value `x < 2 ^ 64`; for shift counts
`≥ 64` the result is `0`, agreeing with `x >>> s` on that domain (see
`shr64_eq`) while staying computable for wrapped counts. -/
def shr64 (x s : Nat) : Nat := if 64 ≤ s then 0 else x >>> s

/-- `size_t` subtraction with wrap-around: for operands `< 2 ^ 64` this
equals `(a + 2 ^ 64 - b) % 2 ^ 64` (see `ssub_eq_wrap`); the branching form
keeps symbolic terms away from huge literal addends. -/
def ssub (a b : Nat) : Nat := if b ≤ a then a - b else a + (M64 - b)

/-- `uint64_t` bitwise complement of a block value `x < 2 ^ 64`. -/
def compl64 (x : Nat) : Nat := allOnes64 ^^^ x

/-- Fuel-driven binary popcount helper. -/
def pcAux : Nat → Nat → Nat
  | 0, _ => 0
  | f + 1, n => if n = 0 then 0 else n % 2 + pcAux f (n / 2)

/-- `std::popcount` on a `uint64_t` block value (correct for inputs `< 2 ^ 64`,
which is the entire domain of the C++ function). -/
def popcount (n : Nat) : Nat := pcAux 64 n

/-- The state of a `BitArray<uint64_t>` object: the C++ data members
`m_bitset_capacity`, `m_num_bits`, `m_count` and `m_bits`. -/
structure BitArray where
  m_bitset_capacity : Nat
  m_num_bits : Nat
  m_count : Nat
  m_bits : List Nat
  deriving Repr, DecidableEq

/-- `BitArray(std::size_t num_bits)`: capacity `(num_bits-1)/64 + 1`,
zero-filled blocks, zero count. -/
def mkBitArray (num_bits : Nat) : BitArray :=
  { m_bitset_capacity := (num_bits - 1) / 64 + 1
    m_num_bits := num_bits
    m_count := 0
    m_bits := List.replicate ((num_bits - 1) / 64 + 1) 0 }

/-- `block_index(pos) = pos / bits_per_block`. -/
def blockIndex (pos : Nat) : Nat := pos / 64

/-- `bit_index(pos) = pos % bits_per_block`. -/
def bitIndex (pos : Nat) : Nat := pos % 64

/-- `bit_mask(pos) = Block(1) << bit_index(pos)`. -/
def bitMask (pos : Nat) : Nat := 2 ^ (pos % 64)

/-- `size()`: the logical number of bits `m_num_bits`. -/
def BitArray.size (a : BitArray) : Nat := a.m_num_bits

/-- `num_blocks()`: the number of stored blocks. -/
def BitArray.numBlocks (a : BitArray) : Nat := a.m_bits.length

/-- `count()`: the cached number of set bits. -/
def BitArray.count (a : BitArray) : Nat := a.m_count

/-- `set(pos)`: or the bit mask into the addressed block and blindly increment
the cached count (`m_count++` on `size_t`). -/
def BitArray.set (a : BitArray) (pos : Nat) : BitArray :=
  { a with
    m_bits := a.m_bits.set (blockIndex pos)
      (a.m_bits.getD (blockIndex pos) 0 ||| bitMask pos)
    m_count := (a.m_count + 1) % M64 }

/-- `clear(pos)`: and the complemented bit mask into the addressed block and
blindly decrement the cached count (`m_count--` on `size_t`, which wraps to
`2 ^ 64 - 1` when the cache is zero; this equals
`(m_count + 2 ^ 64 - 1) % 2 ^ 64`). -/
def BitArray.clear (a : BitArray) (pos : Nat) : BitArray :=
  { a with
    m_bits := a.m_bits.set (blockIndex pos)
      (a.m_bits.getD (blockIndex pos) 0 &&& compl64 (bitMask pos))
    m_count := if a.m_count = 0 then M64 - 1 else a.m_count - 1 }

/-- `at(pos)`: `m_bits[block_index(pos)] >> bit_index(pos) & 1` (the C++
member is named `at`, a reserved word in Lean). -/
def BitArray.atPos (a : BitArray) (pos : Nat) : Nat :=
  (a.m_bits.getD (blockIndex pos) 0 >>> bitIndex pos) &&& 1

/-- `reset()`: zero every block and the cached count. -/
def BitArray.reset (a : BitArray) : BitArray :=
  { a with m_bits := List.replicate a.m_bits.length 0, m_count := 0 }

/-- Popcount sum over a block list (body of `recount()`). -/
def recountBits (bs : List Nat) : Nat := (bs.map popcount).sum

/-- `recount()`: the exact number of set bits, a popcount reduction over all
blocks. -/
def BitArray.recount (a : BitArray) : Nat := recountBits a.m_bits

/-- `common(other)`: the AND-popcount intersection, summed over block pairs. -/
def BitArray.common (a other : BitArray) : Nat :=
  (List.zipWith (fun x y => popcount (x &&& y)) a.m_bits other.m_bits).sum

/-- `operator==`: blockwise comparison of `m_bits`. -/
def BitArray.beq (a other : BitArray) : Bool := a.m_bits == other.m_bits

/-!  The blockwise rotate (`BitArray::rotate`).

`rotIter` performs one iteration of the `while (opos < num_blocks())` loop
body and returns the updated mutable state `(opos, iblk, ibit, out)`; `rotGo`
iterates it.  `B` is `other.m_bits`, `nb` the number of blocks,
`lb = m_num_bits % 64` (`last_bits`), and `sblk`/`sbit` the start block/bit
positions.  The bounds-checked writes `m_bits.at(opos) = block` become
`List.set`.  The loop runs at most `nb` iterations because `opos` strictly
increases on every path, so fuel `nb` is sufficient. -/

/-- The part of the loop body from the `iblk_pos == start_blk_pos` test to the
bottom write `m_bits.at(opos) = block; opos++;`. -/
def rotClose (B : List Nat) (_nb lb sblk sbit opos iblk ibit : Nat)
    (out : List Nat) (block : Nat) : Nat × Nat × Nat × List Nat :=
  if iblk = sblk then
    -- rblock = (ibit_pos == 0) ? 0 : rblock << (bits_per_block-ibit_pos);
    let rblock := if ibit = 0 then 0 else shl64 (B.getD iblk 0) (ssub 64 ibit)
    if sbit ≤ ibit then
      if lb = 0 then
        (opos + 1, iblk, ibit, out.set opos (block ||| rblock))
      else
        -- rblock &= (~0 >> (bits_per_block - last_bits));
        -- block |= rblock; block &= ~(~0 << last_bits);
        let rblock := rblock &&& (allOnes64 >>> (64 - lb))
        let block := (block ||| rblock) &&& compl64 (shl64 allOnes64 lb)
        (opos + 1, iblk, ibit, out.set opos block)
    else
      -- block |= rblock; m_bits.at(opos) = block; opos++;
      -- block = other.m_bits[start_blk_pos]; block >>= ibit_pos;
      -- block &= ~(~0 << last_bits);
      let out := out.set opos (block ||| rblock)
      let opos := opos + 1
      let block := shr64 (B.getD sblk 0) ibit &&& compl64 (shl64 allOnes64 lb)
      (opos + 1, iblk, ibit, out.set opos block)
  else
    -- rblock = (ibit_pos == 0) ? 0 : rblock << (bits_per_block-ibit_pos);
    -- block |= rblock;
    let rblock := if ibit = 0 then 0 else shl64 (B.getD iblk 0) (ssub 64 ibit)
    (opos + 1, iblk, ibit, out.set opos (block ||| rblock))

/-- One iteration of the rotate loop body. -/
def rotIter (B : List Nat) (nb lb sblk sbit opos iblk ibit : Nat)
    (out : List Nat) : Nat × Nat × Nat × List Nat :=
  -- block_type block{other.m_bits[iblk_pos]};
  -- block = (ibit_pos >= bits_per_block) ? 0 : block >> ibit_pos;
  let block := if 64 ≤ ibit then 0 else B.getD iblk 0 >>> ibit
  -- if ((start_bit_pos == ibit_pos) && (iblk_pos == num_blocks()-1))
  --   ibit_pos = last_bits == 0 ? ibit_pos
  --            : (bits_per_block - (last_bits - ibit_pos));
  let ibit := if sbit = ibit ∧ iblk = nb - 1 then
      (if lb = 0 then ibit else ssub 64 (ssub lb ibit)) else ibit
  -- iblk_pos++; if (iblk_pos == num_blocks()) iblk_pos = 0;
  let iblk := if iblk + 1 = nb then 0 else iblk + 1
  if iblk = nb - 1 ∧ iblk ≠ sblk then
    let rblock := if ibit = 0 then 0 else shl64 (B.getD iblk 0) (ssub 64 ibit)
    let block := block ||| rblock
    if lb = 0 ∨ ibit ≤ lb then
      -- m_bits.at(opos) = block; opos++;
      let out := out.set opos block
      let opos := opos + 1
      -- block = (rblock >> ibit_pos) & ~(~0 << (last_bits-ibit_pos));
      let block := shr64 (B.getD iblk 0) ibit &&&
        compl64 (shl64 allOnes64 (ssub lb ibit))
      -- ibit_pos = (last_bits == 0) ? ibit_pos
      --          : (bits_per_block-(last_bits - ibit_pos));
      let ibit2 := if lb = 0 then ibit else ssub 64 (ssub lb ibit)
      if ibit2 = 0 ∧ lb = 0 then
        -- continue;  (iblk_pos stays at num_blocks()-1)
        (opos, iblk, ibit2, out)
      else
        rotClose B nb lb sblk sbit opos 0 ibit2 out block
    else
      -- ibit_pos -= last_bits; iblk_pos = 0;
      rotClose B nb lb sblk sbit opos 0 (ibit - lb) out block
  else
    rotClose B nb lb sblk sbit opos iblk ibit out block

/-- The rotate loop: iterate `rotIter` while `opos < nb`. -/
def rotGo (B : List Nat) (nb lb sblk sbit : Nat) :
    Nat → Nat → Nat → Nat → List Nat → List Nat
  | 0, _, _, _, out => out
  | fuel + 1, opos, iblk, ibit, out =>
    if opos < nb then
      let s := rotIter B nb lb sblk sbit opos iblk ibit out
      rotGo B nb lb sblk sbit fuel s.1 s.2.1 s.2.2.1 s.2.2.2
    else out

/-- `rotate(other, n)`: the fast blockwise right rotation.  Normalizes `n`,
copies `other` wholesale when the normalized amount is zero, and otherwise
runs the blockwise loop over the destination's blocks. -/
def BitArray.rotate (a other : BitArray) (n : Nat) : BitArray :=
  let n := if a.m_num_bits ≤ n then n % a.m_num_bits else n
  if n = 0 then other
  else
    let sblk := blockIndex (a.m_num_bits - n)
    let sbit := bitIndex (a.m_num_bits - n)
    let lb := a.m_num_bits % 64
    { a with
      m_bits := rotGo other.m_bits a.m_bits.length lb sblk sbit
        a.m_bits.length 0 sblk sbit a.m_bits }

/-- `rotateRight(other, n)`: the elementwise reference rotation; resets the
destination and sets every output bit whose rotated source bit is set. -/
def BitArray.rotateRight (a other : BitArray) (n : Nat) : BitArray :=
  let n := if a.m_num_bits ≤ n then n % a.m_num_bits else n
  if n = 0 then other
  else
    (List.range a.m_num_bits).foldl
      (fun acc i =>
        if other.atPos ((i + a.m_num_bits - n) % a.m_num_bits) = 1 then
          acc.set i else acc)
      a.reset

/-- One whole-array shift of the left-mask working buffer: the high-to-low
loop `newv = (b[i] << 1) | (prev >> (bits_per_block-1))` where `prev` is the
previous (old) block, i.e. the old `b[i+1]` (zero for the last block). -/
def leftStep (bs : List Nat) : List Nat :=
  List.zipWith (fun cur nxt => shl64 cur 1 ||| (nxt >>> 63)) bs (bs.tail ++ [0])

/-- One whole-array shift of the right-mask working buffer: the low-to-high
loop `newv = (b[i] >> 1) | (prev << (bits_per_block-1))` where `prev` is the
previous (old) block, i.e. the old `b[i-1]` (zero for block 0). -/
def rightStep (bs : List Nat) : List Nat :=
  List.zipWith (fun cur prv => (cur >>> 1) ||| shl64 prv 63) bs (0 :: bs)

/-- The `for (ir = 0; ir < dt; ir++)` accumulation: repeatedly shift the
working buffer and or it into the result. -/
def maskAccum (step : List Nat → List Nat) : Nat → List Nat → List Nat → List Nat
  | 0, acc, _ => acc
  | dt + 1, acc, work =>
    let work := step work
    maskAccum step dt (List.zipWith (· ||| ·) acc work) work

/-- `createLeftNeighbourMask(other, dt)`: copy `other`'s blocks, length and
capacity into the destination; when `0 < dt < bits_per_block`, accumulate `dt`
left shifts of the blocks and recount, otherwise leave the copy as is (the
cached count is not written on that path). -/
def BitArray.createLeftNeighbourMask (a other : BitArray) (dt : Int) : BitArray :=
  let a := { a with
    m_bits := other.m_bits
    m_num_bits := other.m_num_bits
    m_bitset_capacity := other.m_bitset_capacity }
  if 0 < dt ∧ dt < 64 then
    let bits := maskAccum leftStep dt.toNat other.m_bits other.m_bits
    { a with m_bits := bits, m_count := recountBits bits }
  else a

/-- `createRightNeighbourMask(other, dt)`: as `createLeftNeighbourMask` with
the right-shift step. -/
def BitArray.createRightNeighbourMask (a other : BitArray) (dt : Int) : BitArray :=
  let a := { a with
    m_bits := other.m_bits
    m_num_bits := other.m_num_bits
    m_bitset_capacity := other.m_bitset_capacity }
  if 0 < dt ∧ dt < 64 then
    let bits := maskAccum rightStep dt.toNat other.m_bits other.m_bits
    { a with m_bits := bits, m_count := recountBits bits }
  else a

/-- The padding invariant together with block-width bounds, stated
structurally: the head block is `< 2 ^ min 64 L` and the remaining blocks
satisfy the same with `L` reduced by 64.  In particular every bit at logical
index `≥ L` is zero and every block is a `uint64_t` value. -/
def goodBlocks : Nat → List Nat → Bool
  | _, [] => true
  | L, b :: bs => decide (b < 2 ^ min 64 L) && goodBlocks (L - 64) bs

/-- Well-formed `BitArray` state: positive logical length, block count as
allocated by the constructor, and the padding invariant. -/
def BitArray.wf (a : BitArray) : Prop :=
  0 < a.m_num_bits ∧
    a.m_bits.length = (a.m_num_bits - 1) / 64 + 1 ∧
    goodBlocks a.m_num_bits a.m_bits = true

/-- Bit `p` of a block list (the core of `at(pos)`). -/
def atBits (bs : List Nat) (p : Nat) : Nat := (bs.getD (p / 64) 0 >>> (p % 64)) &&& 1

/-- A single `set`/`clear` call in a mutation sequence. -/
inductive SCOp where
  | set (pos : Nat)
  | clr (pos : Nat)
  deriving Repr, DecidableEq

/-- Execute one `set`/`clear` call. -/
def applyOp (a : BitArray) : SCOp → BitArray
  | .set p => a.set p
  | .clr p => a.clear p

/-- Execute a sequence of `set`/`clear` calls. -/
def applyOps (a : BitArray) (ops : List SCOp) : BitArray := ops.foldl applyOp a

/-- The §4.1 call discipline: every `set` targets an in-range, currently
clear bit and every `clear` an in-range, currently set bit. -/
def validOps (a : BitArray) : List SCOp → Bool
  | [] => true
  | .set p :: rest =>
    decide (p < a.m_num_bits) && (a.atPos p == 0) && validOps (a.set p) rest
  | .clr p :: rest =>
    decide (p < a.m_num_bits) && (a.atPos p == 1) && validOps (a.clear p) rest

/-- The generic merged output block of the rotate loop: the low part of the
block under the cursor shifted down by the cursor's bit offset, or-ed with the
next block shifted up by the complementary amount (with the loop's exact
guards). -/
def win (x y t : Nat) : Nat :=
  (if 64 ≤ t then 0 else x >>> t) ||| (if t = 0 then 0 else shl64 y (ssub 64 t))

/-- The writes performed by a run of generic rotate-loop iterations: `m`
consecutive output blocks `win B[j+i] B[j+i+1] t` at positions `opos + i`. -/
def genWrites (B out : List Nat) (opos j t : Nat) : Nat → List Nat
  | 0 => out
  | m + 1 =>
    genWrites B (out.set opos (win (B.getD j 0) (B.getD (j + 1) 0) t)) (opos + 1) (j + 1) t m

/-- Bit `g` of a block list, as a Boolean (`atBits` gives the same bit as a
`0`/`1` block value). -/
def bitOf (bs : List Nat) (g : Nat) : Bool := (bs.getD (g / 64) 0).testBit (g % 64)

/-! ### Basic lemmas about the machine-integer model -/

theorem shl64_eq (x s : Nat) : shl64 x s = (x <<< s) % M64 := by
  unfold shl64
  split
  · next h =>
    have hs : 2 ^ s = 2 ^ 64 * 2 ^ (s - 64) := by
      rw [← pow_add]; congr 1; omega
    rw [Nat.shiftLeft_eq, hs, M64, ← Nat.mul_assoc, Nat.mul_comm x (2 ^ 64),
      Nat.mul_assoc, Nat.mul_mod_right]
  · rfl

theorem shr64_eq (x s : Nat) (hx : x < M64) : shr64 x s = x >>> s := by
  unfold shr64
  split
  · next h =>
    rw [Nat.shiftRight_eq_div_pow, Nat.div_eq_of_lt]
    exact lt_of_lt_of_le hx (Nat.pow_le_pow_right (by norm_num) h)
  · rfl

/-! ### C5: out-of-range neighbour-mask distance acts as identity -/

/-- C5: for every destination, source `S` and distance `dt` with `dt ≤ 0` or
`dt ≥ bits_per_block = 64`, both `createLeftNeighbourMask(S, dt)` and
`createRightNeighbourMask(S, dt)` leave the destination equal to an unmodified
copy of `S`: its blocks, logical length and capacity are those of `S`, and it
compares equal to `S` under `operator==`. -/
theorem mask_out_of_range_is_copy (a other : BitArray) (dt : Int)
    (h : dt ≤ 0 ∨ 64 ≤ dt) :
    (a.createLeftNeighbourMask other dt).m_bits = other.m_bits ∧
    (a.createLeftNeighbourMask other dt).m_num_bits = other.m_num_bits ∧
    (a.createLeftNeighbourMask other dt).m_bitset_capacity = other.m_bitset_capacity ∧
    (a.createLeftNeighbourMask other dt).beq other = true ∧
    (a.createRightNeighbourMask other dt).m_bits = other.m_bits ∧
    (a.createRightNeighbourMask other dt).m_num_bits = other.m_num_bits ∧
    (a.createRightNeighbourMask other dt).m_bitset_capacity = other.m_bitset_capacity ∧
    (a.createRightNeighbourMask other dt).beq other = true := by
  have hc : ¬(0 < dt ∧ dt < 64) := by rcases h with h | h <;> omega
  simp [BitArray.createLeftNeighbourMask, BitArray.createRightNeighbourMask,
    BitArray.beq, hc]

/-- Witness for C5 at `dt = 64` on a concrete source with bit 3 set. -/
theorem mask_out_of_range_is_copy_witness :
    (((64 : Int) ≤ 0 ∨ 64 ≤ (64 : Int)) ∧
      ((mkBitArray 8).createLeftNeighbourMask ((mkBitArray 8).set 3) 64).m_bits =
        ((mkBitArray 8).set 3).m_bits) :=
  ⟨Or.inr le_rfl,
    (mask_out_of_range_is_copy (mkBitArray 8) ((mkBitArray 8).set 3) 64
      (Or.inr le_rfl)).1⟩

/-! ### C10: rotate never touches the destination's cached count -/

/-- C10: whenever the normalized rotation amount is nonzero (`n mod length ≠
0`), `dst.rotate(src, n)` leaves `dst.m_count` unchanged: the blockwise loop
writes only `m_bits`, so the cached set-bit count is neither recomputed nor
carried over from the source. -/
theorem rotate_preserves_dest_count (a other : BitArray) (n : Nat)
    (h : n % a.m_num_bits ≠ 0) :
    (a.rotate other n).m_count = a.m_count := by
  unfold BitArray.rotate
  by_cases hle : a.m_num_bits ≤ n
  · simp [hle, h]
  · have hn : n % a.m_num_bits = n := Nat.mod_eq_of_lt (Nat.lt_of_not_le hle)
    rw [hn] at h
    simp [hle, h]

/-- Witness for C10: rotating a one-bit source by 2 into a fresh length-8
destination leaves the destination count at 0. -/
theorem rotate_preserves_dest_count_witness :
    2 % (mkBitArray 8).m_num_bits ≠ 0 ∧
      ((mkBitArray 8).rotate ((mkBitArray 8).set 3) 2).m_count =
        (mkBitArray 8).m_count :=
  ⟨by decide, rotate_preserves_dest_count (mkBitArray 8) ((mkBitArray 8).set 3) 2
    (by decide)⟩

/-! ### C9: immutability of the logical length -/

/-- Counterexample to C9 as stated: the neighbour-mask operations overwrite
the destination's `m_num_bits` with the source's without any length
precondition, so calling one with a longer source changes `size()` (from 8
to 16 here). -/
theorem size_changed_by_mask_counterexample :
    ((mkBitArray 8).createLeftNeighbourMask (mkBitArray 16) 2).size ≠
      (mkBitArray 8).size := by decide

set_option maxRecDepth 4000 in
/-- C9 (amended): `set`, `clear`, `reset` and `rotate` never change `size()`;
the two neighbour-mask operations assign the source's length to the
destination, hence preserve `size()` exactly when the operands' lengths are
equal (`rotate` asserts that equality, the masks do not check it). -/
theorem size_immutable_amended (a other : BitArray) (p n : Nat) (dt : Int)
    (hlen : a.m_num_bits = other.m_num_bits) :
    (a.set p).size = a.size ∧
    (a.clear p).size = a.size ∧
    a.reset.size = a.size ∧
    (a.rotate other n).size = a.size ∧
    (a.createLeftNeighbourMask other dt).size = a.size ∧
    (a.createRightNeighbourMask other dt).size = a.size := by
  refine ⟨rfl, rfl, rfl, ?_, ?_, ?_⟩
  · rw [BitArray.rotate]
    split <;> split <;> first
      | exact hlen.symm
      | rfl
  · unfold BitArray.createLeftNeighbourMask
    split <;> exact hlen.symm
  · unfold BitArray.createRightNeighbourMask
    split <;> exact hlen.symm

/-- Witness for C9 (amended) on equal-length concrete operands. -/
theorem size_immutable_amended_witness :
    (mkBitArray 8).m_num_bits = ((mkBitArray 8).set 3).m_num_bits ∧
      ((mkBitArray 8).rotate ((mkBitArray 8).set 3) 2).size = (mkBitArray 8).size :=
  ⟨rfl, (size_immutable_amended (mkBitArray 8) ((mkBitArray 8).set 3) 5 2 7 rfl).2.2.2.1⟩

/-! ### C8: `common(S, S) = count(S)` -/

/-- Counterexample to C8 as stated: `set` blindly increments the cached
count, so setting bit 3 twice yields `count() = 2` while the intersection
popcount `common(S, S)` is 1. -/
theorem common_self_ne_count_counterexample :
    (((mkBitArray 8).set 3).set 3).common (((mkBitArray 8).set 3).set 3) ≠
      (((mkBitArray 8).set 3).set 3).count := by decide

/-- C8 (amended): for every bit array whose cached count is accurate
(`count() = recount()` — guaranteed under the §4.1 set/clear discipline),
the intersection popcount with itself equals the cached count:
`common(S, S) = count(S)`. -/
theorem common_self_eq_count_of_accurate (a : BitArray)
    (h : a.count = a.recount) : a.common a = a.count := by
  have hz : ∀ l : List Nat,
      (List.zipWith (fun x y => popcount (x &&& y)) l l).sum = (l.map popcount).sum := by
    intro l
    induction l with
    | nil => rfl
    | cons b bs ih => simp [ih, Nat.and_self]
  rw [BitArray.common, hz, h]
  rfl

/-- Witness for C8 (amended) on a concrete array with an accurate count. -/
theorem common_self_eq_count_of_accurate_witness :
    ((mkBitArray 8).set 3).count = ((mkBitArray 8).set 3).recount ∧
      ((mkBitArray 8).set 3).common ((mkBitArray 8).set 3) = ((mkBitArray 8).set 3).count :=
  ⟨by decide, common_self_eq_count_of_accurate ((mkBitArray 8).set 3) (by decide)⟩

/-- The branching `ssub` agrees with the wrap-around form of `size_t`
subtraction on the `size_t` domain. -/
theorem ssub_eq_wrap (a b : Nat) (ha : a < M64) (hb : b < M64) :
    ssub a b = (a + M64 - b) % M64 := by
  unfold ssub
  split
  · next h =>
    have h1 : a + M64 - b = M64 + (a - b) := by omega
    rw [h1, Nat.add_mod_left, Nat.mod_eq_of_lt (by omega)]
  · next h =>
    rw [Nat.mod_eq_of_lt (by omega)]
    omega

/-! ### C4: the concrete 8-bit neighbour-mask scenario -/

/-- Counterexample to C4 as stated: for the 8-bit source with exactly bit 4
set, `createRightNeighbourMask(S, 2)` leaves bit 5 clear (the claim demands
it set) and `createLeftNeighbourMask(S, 2)` sets bit 5 (the claim demands it
clear).  The directions in the claim are swapped relative to the code. -/
theorem eight_bit_mask_scenario_counterexample :
    ((mkBitArray 8).createRightNeighbourMask ((mkBitArray 8).set 4) 2).atPos 5 = 0 ∧
      ((mkBitArray 8).createLeftNeighbourMask ((mkBitArray 8).set 4) 2).atPos 5 = 1 := by
  decide

/-- C4 (amended): for the 8-bit source with exactly bit 4 set,
`createRightNeighbourMask(S, 2)` sets exactly bits {2,3,4} (block value
`0b11100 = 28`) and `createLeftNeighbourMask(S, 2)` sets exactly bits {4,5,6}
(block value `0b1110000 = 112`): the code's right mask marks positions from
which a set bit is reachable within distance 2 *upward*, i.e. bit `i` is set
iff `S[i+k]` holds for some `k ≤ 2`, and symmetrically for the left mask. -/
theorem eight_bit_mask_scenario_amended :
    ((mkBitArray 8).createRightNeighbourMask ((mkBitArray 8).set 4) 2).m_bits = [28] ∧
      ((mkBitArray 8).createLeftNeighbourMask ((mkBitArray 8).set 4) 2).m_bits = [112] := by
  decide

/-! ### C2: the neighbour-mask bit characterization -/

/-- C2 fails on the code: the carry between adjacent words is taken from the
wrong neighbour, so the characterization "result bit `i` is set iff some
source bit within distance `dt` (linear, no wraparound) is set" breaks at
every block boundary.  At `L = 128`, `S = {0}`, `dt = 1`:
`createRightNeighbourMask` sets result bit 127 although no source bit exists
at 127 or beyond, and at `S = {63}` `createLeftNeighbourMask` leaves result
bit 64 clear although source bit 63 is set at distance 1. -/
theorem mask_block_boundary_bug :
    (((mkBitArray 128).createRightNeighbourMask ((mkBitArray 128).set 0) 1).atPos 127 = 1 ∧
      ((mkBitArray 128).set 0).atPos 127 = 0 ∧
      (∀ k, k ≤ 1 → 127 + k < 128 → ((mkBitArray 128).set 0).atPos (127 + k) = 0)) ∧
    (((mkBitArray 128).createLeftNeighbourMask ((mkBitArray 128).set 63) 1).atPos 64 = 0 ∧
      ((mkBitArray 128).set 63).atPos 63 = 1) := by
  refine ⟨⟨by decide, by decide, ?_⟩, by decide, by decide⟩
  intro k hk hlt
  interval_cases k <;> decide

/-! ### C3: the padding invariant after rotate / mask operations -/

/-- C3 fails on the code: the neighbour-mask operations never mask the final
word, so they can set padding bits at index `≥ length`.  At `L = 65` with the
well-formed source `S = {64}`, `createLeftNeighbourMask(S, 1)` sets bit 65 of
the result (and the result violates `goodBlocks`); likewise
`createRightNeighbourMask` at `L = 65`, `S = {0}`, `dt = 1` sets bit 127. -/
theorem mask_padding_violation :
    (BitArray.wf ((mkBitArray 65).set 64) ∧
      ((mkBitArray 65).createLeftNeighbourMask ((mkBitArray 65).set 64) 1).atPos 65 = 1 ∧
      goodBlocks 65
        ((mkBitArray 65).createLeftNeighbourMask ((mkBitArray 65).set 64) 1).m_bits = false) ∧
    (BitArray.wf ((mkBitArray 65).set 0) ∧
      ((mkBitArray 65).createRightNeighbourMask ((mkBitArray 65).set 0) 1).atPos 127 = 1) := by
  constructor
  · refine ⟨⟨by decide, by decide, by decide⟩, by decide, by decide⟩
  · refine ⟨⟨by decide, by decide, by decide⟩, by decide⟩

/-! ### Popcount lemmas -/

theorem pcAux_zero (f : Nat) : pcAux f 0 = 0 := by cases f <;> rfl

theorem pcAux_succ (f n : Nat) : pcAux (f + 1) n = n % 2 + pcAux f (n / 2) := by
  by_cases h : n = 0
  · subst h; simp [pcAux, pcAux_zero]
  · simp [pcAux, h]

theorem pcAux_or_two_pow (f : Nat) :
    ∀ i b, i < f → b.testBit i = false → pcAux f (b ||| 2 ^ i) = pcAux f b + 1 := by
  induction f with
  | zero => intro i b hi; omega
  | succ f ih =>
    intro i b hi hbit
    cases i with
    | zero =>
      have hb2 : b % 2 = 0 := by
        have := Nat.mod_two_eq_zero_iff_testBit_zero.2 hbit
        exact this
      rw [pcAux_succ, pcAux_succ]
      have h1 : (b ||| 2 ^ 0) % 2 = 1 := by
        simp [Nat.or_mod_two_eq_one, hb2]
      have h2 : (b ||| 2 ^ 0) / 2 = b / 2 := by
        rw [Nat.or_div_two]
        norm_num
      rw [h1, h2, hb2]
      omega
    | succ i =>
      have hbit2 : (b / 2).testBit i = false := by
        rw [← Nat.testBit_add_one]; exact hbit
      have h2 : (b ||| 2 ^ (i + 1)) / 2 = b / 2 ||| 2 ^ i := by
        rw [Nat.or_div_two, Nat.pow_succ, Nat.mul_div_cancel]
        omega
      have h1 : (b ||| 2 ^ (i + 1)) % 2 = b % 2 := by
        have hp : 2 ^ (i + 1) % 2 = 0 := by
          simp [Nat.pow_succ, Nat.mul_mod_left]
        rcases Nat.mod_two_eq_zero_or_one b with h | h
        · have : ¬((b ||| 2 ^ (i + 1)) % 2 = 1) := by
            simp [Nat.or_mod_two_eq_one, h, hp]
          omega
        · have : (b ||| 2 ^ (i + 1)) % 2 = 1 := by
            simp [Nat.or_mod_two_eq_one, h]
          omega
      have hih := ih i (b / 2) (by omega) hbit2
      rw [pcAux_succ, pcAux_succ, h1, h2, hih]
      omega

theorem pcAux_le (f : Nat) :
    ∀ k n, n < 2 ^ k → k ≤ f → pcAux f n ≤ k := by
  induction f with
  | zero =>
    intro k n hn hk
    interval_cases k
    interval_cases n
    simp [pcAux_zero]
  | succ f ih =>
    intro k n hn hk
    cases k with
    | zero => interval_cases n; simp [pcAux_zero]
    | succ k =>
      rw [pcAux_succ]
      have h1 : n / 2 < 2 ^ k := by
        rw [Nat.div_lt_iff_lt_mul (by norm_num)]
        calc n < 2 ^ (k + 1) := hn
        _ = 2 ^ k * 2 := by ring
      have h2 := ih k (n / 2) h1 (by omega)
      have h3 : n % 2 ≤ 1 := by omega
      omega

theorem pcAux_lt_of_clear (f : Nat) :
    ∀ k n i, n < 2 ^ k → k ≤ f → i < k → n.testBit i = false →
      pcAux f n + 1 ≤ k := by
  induction f with
  | zero => intro k n i _ hk hi; omega
  | succ f ih =>
    intro k n i hn hk hi hbit
    cases k with
    | zero => omega
    | succ k =>
      rw [pcAux_succ]
      have h1 : n / 2 < 2 ^ k := by
        rw [Nat.div_lt_iff_lt_mul (by norm_num)]
        calc n < 2 ^ (k + 1) := hn
        _ = 2 ^ k * 2 := by ring
      cases i with
      | zero =>
        have hb2 : n % 2 = 0 := Nat.mod_two_eq_zero_iff_testBit_zero.2 hbit
        have h2 := pcAux_le f k (n / 2) h1 (by omega)
        omega
      | succ i =>
        have hbit2 : (n / 2).testBit i = false := by
          rw [← Nat.testBit_add_one]; exact hbit
        have h2 := ih k (n / 2) i h1 (by omega) (by omega) hbit2
        have h3 : n % 2 ≤ 1 := by omega
        omega

theorem pcAux_pos (f : Nat) :
    ∀ n, 0 < n → n < 2 ^ f → 1 ≤ pcAux f n := by
  induction f with
  | zero => intro n h1 h2; omega
  | succ f ih =>
    intro n h1 h2
    rw [pcAux_succ]
    rcases Nat.mod_two_eq_zero_or_one n with h | h
    · have hpos : 0 < n / 2 := by omega
      have hlt : n / 2 < 2 ^ f := by
        rw [Nat.div_lt_iff_lt_mul (by norm_num)]
        calc n < 2 ^ (f + 1) := h2
        _ = 2 ^ f * 2 := by ring
      have := ih (n / 2) hpos hlt
      omega
    · omega

theorem testBit_allOnes64 (j : Nat) : allOnes64.testBit j = decide (j < 64) := by
  rw [allOnes64]
  exact Nat.testBit_two_pow_sub_one 64 j

/-- The clear-one-bit operation written as in the C++ code, on a block
`b < 2 ^ 64` with bit `i < 64` set: clearing then re-setting bit `i` gives
back `b`, and the cleared block has bit `i` clear. -/
theorem and_compl_two_pow (b i : Nat) (hb : b < 2 ^ 64) (hi : i < 64)
    (hbit : b.testBit i = true) :
    (b &&& compl64 (2 ^ i)) ||| 2 ^ i = b ∧
      (b &&& compl64 (2 ^ i)).testBit i = false := by
  constructor
  · apply Nat.eq_of_testBit_eq
    intro j
    by_cases hj : j = i
    · subst hj
      simp [Nat.testBit_or, Nat.testBit_two_pow_self, hbit]
    · by_cases hj64 : j < 64
      · simp [Nat.testBit_or, Nat.testBit_and, compl64,
          Nat.testBit_xor, testBit_allOnes64, hj64,
          Nat.testBit_two_pow_of_ne (fun h => hj h.symm)]
      · have h1 : b.testBit j = false :=
          Nat.testBit_lt_two_pow (lt_of_lt_of_le hb
            (Nat.pow_le_pow_right (by norm_num) (by omega)))
        simp [Nat.testBit_or, Nat.testBit_and, compl64,
          Nat.testBit_xor, testBit_allOnes64, hj64, h1,
          Nat.testBit_two_pow_of_ne (fun h => hj h.symm)]
  · simp [Nat.testBit_and, compl64, Nat.testBit_xor,
      testBit_allOnes64, hi, Nat.testBit_two_pow_self]

theorem popcount_clear (b i : Nat) (hb : b < 2 ^ 64) (hi : i < 64)
    (hbit : b.testBit i = true) :
    popcount (b &&& compl64 (2 ^ i)) + 1 = popcount b := by
  obtain ⟨h1, h2⟩ := and_compl_two_pow b i hb hi hbit
  have := pcAux_or_two_pow 64 i (b &&& compl64 (2 ^ i)) hi h2
  rw [h1] at this
  rw [popcount, popcount, this]

/-! ### Block-list lemmas: `recountBits`, `goodBlocks`, `atBits` -/

theorem recountBits_cons (b : Nat) (bs : List Nat) :
    recountBits (b :: bs) = popcount b + recountBits bs := by
  simp [recountBits]

theorem goodBlocks_cons {L b : Nat} {bs : List Nat} :
    goodBlocks L (b :: bs) = true ↔
      b < 2 ^ min 64 L ∧ goodBlocks (L - 64) bs = true := by
  simp [goodBlocks]

theorem shiftRight_and_one (x i : Nat) :
    (x >>> i) &&& 1 = if x.testBit i then 1 else 0 := by
  rw [Nat.and_one_is_mod, Nat.shiftRight_eq_div_pow, Nat.testBit_to_div_mod]
  rcases Nat.mod_two_eq_zero_or_one (x / 2 ^ i) with h | h <;> simp [h]

theorem atBits_cons_lt {p : Nat} (b : Nat) (bs : List Nat) (h : p < 64) :
    atBits (b :: bs) p = (b >>> p) &&& 1 := by
  simp [atBits, Nat.div_eq_of_lt h, Nat.mod_eq_of_lt h]

theorem atBits_cons_ge {p : Nat} (b : Nat) (bs : List Nat) (h : 64 ≤ p) :
    atBits (b :: bs) p = atBits bs (p - 64) := by
  have h1 : p / 64 = (p - 64) / 64 + 1 := by omega
  have h2 : p % 64 = (p - 64) % 64 := by omega
  rw [atBits, atBits, h1, h2, List.getD_cons_succ]

theorem goodBlocks_recount_le :
    ∀ (bs : List Nat) (L : Nat), goodBlocks L bs = true → recountBits bs ≤ L := by
  intro bs
  induction bs with
  | nil => intro L _; simp [recountBits]
  | cons b bs ih =>
    intro L hg
    obtain ⟨hb, hg2⟩ := goodBlocks_cons.1 hg
    have h1 : popcount b ≤ min 64 L := pcAux_le 64 (min 64 L) b hb (by omega)
    have h2 := ih (L - 64) hg2
    rw [recountBits_cons]
    omega

theorem goodBlocks_recount_lt :
    ∀ (bs : List Nat) (L p : Nat), goodBlocks L bs = true → p < L →
      atBits bs p = 0 → recountBits bs + 1 ≤ L := by
  intro bs
  induction bs with
  | nil => intro L p _ hp _; simp [recountBits]; omega
  | cons b bs ih =>
    intro L p hg hp ha
    obtain ⟨hb, hg2⟩ := goodBlocks_cons.1 hg
    rw [recountBits_cons]
    by_cases h64 : p < 64
    · rw [atBits_cons_lt b bs h64, shiftRight_and_one] at ha
      have hbit : b.testBit p = false := by
        by_cases h : b.testBit p = true
        · rw [h] at ha; simp at ha
        · simpa using h
      have h1 : popcount b + 1 ≤ min 64 L :=
        pcAux_lt_of_clear 64 (min 64 L) b p hb (by omega) (by omega) hbit
      have h2 := goodBlocks_recount_le bs (L - 64) hg2
      omega
    · rw [atBits_cons_ge b bs (by omega)] at ha
      have h1 : popcount b ≤ min 64 L := pcAux_le 64 (min 64 L) b hb (by omega)
      have h2 := ih (L - 64) (p - 64) hg2 (by omega) ha
      omega

theorem goodBlocks_recount_pos :
    ∀ (bs : List Nat) (L p : Nat), goodBlocks L bs = true →
      atBits bs p = 1 → 1 ≤ recountBits bs := by
  intro bs
  induction bs with
  | nil => intro L p _ ha; simp [atBits] at ha
  | cons b bs ih =>
    intro L p hg ha
    obtain ⟨hb, hg2⟩ := goodBlocks_cons.1 hg
    rw [recountBits_cons]
    by_cases h64 : p < 64
    · rw [atBits_cons_lt b bs h64, shiftRight_and_one] at ha
      have hbit : b.testBit p = true := by
        by_cases h : b.testBit p = true
        · exact h
        · rw [Bool.eq_false_iff.2 h] at ha; simp at ha
      have hpos : 0 < b := lt_of_lt_of_le (by norm_num)
        (Nat.testBit_implies_ge hbit)
      have hb64 : b < 2 ^ 64 :=
        lt_of_lt_of_le hb (Nat.pow_le_pow_right (by norm_num) (by omega))
      have h1 := pcAux_pos 64 b hpos hb64
      have h2 : popcount b = pcAux 64 b := rfl
      omega
    · rw [atBits_cons_ge b bs (by omega)] at ha
      have := ih (L - 64) (p - 64) hg2 ha
      omega

theorem recount_set_or :
    ∀ (bs : List Nat) (L p : Nat), goodBlocks L bs = true → p < L →
      p / 64 < bs.length → atBits bs p = 0 →
      recountBits (bs.set (p / 64) (bs.getD (p / 64) 0 ||| 2 ^ (p % 64))) =
          recountBits bs + 1 ∧
        goodBlocks L (bs.set (p / 64) (bs.getD (p / 64) 0 ||| 2 ^ (p % 64))) = true := by
  intro bs
  induction bs with
  | nil => intro L p _ _ hcov; simp at hcov
  | cons b bs ih =>
    intro L p hg hp hcov ha
    obtain ⟨hb, hg2⟩ := goodBlocks_cons.1 hg
    by_cases h64 : p < 64
    · have hd : p / 64 = 0 := Nat.div_eq_of_lt h64
      have hm : p % 64 = p := Nat.mod_eq_of_lt h64
      rw [atBits_cons_lt b bs h64, shiftRight_and_one] at ha
      have hbit : b.testBit p = false := by
        by_cases h : b.testBit p = true
        · rw [h] at ha; simp at ha
        · simpa using h
      rw [hd, hm]
      have hset : (b :: bs).set 0 (List.getD (b :: bs) 0 0 ||| 2 ^ p) =
          (b ||| 2 ^ p) :: bs := by simp
      rw [hset, recountBits_cons, recountBits_cons]
      constructor
      · simp only [popcount]
        rw [pcAux_or_two_pow 64 p b (by omega) hbit]
        omega
      · refine goodBlocks_cons.2 ⟨?_, hg2⟩
        exact Nat.or_lt_two_pow hb
          (Nat.pow_lt_pow_right (by norm_num) (by omega))
    · have hd : p / 64 = (p - 64) / 64 + 1 := by omega
      have hm : p % 64 = (p - 64) % 64 := by omega
      rw [atBits_cons_ge b bs (by omega)] at ha
      rw [hd] at hcov
      simp only [List.length_cons] at hcov
      have := ih (L - 64) (p - 64) hg2 (by omega) (by omega) ha
      rw [hd, hm, List.getD_cons_succ, List.set_cons_succ,
        recountBits_cons, recountBits_cons]
      exact ⟨by rw [this.1]; omega, goodBlocks_cons.2 ⟨hb, this.2⟩⟩

theorem recount_set_and :
    ∀ (bs : List Nat) (L p : Nat), goodBlocks L bs = true →
      p / 64 < bs.length → atBits bs p = 1 →
      recountBits (bs.set (p / 64) (bs.getD (p / 64) 0 &&& compl64 (2 ^ (p % 64)))) + 1 =
          recountBits bs ∧
        goodBlocks L (bs.set (p / 64) (bs.getD (p / 64) 0 &&& compl64 (2 ^ (p % 64)))) = true := by
  intro bs
  induction bs with
  | nil => intro L p _ hcov; simp at hcov
  | cons b bs ih =>
    intro L p hg hcov ha
    obtain ⟨hb, hg2⟩ := goodBlocks_cons.1 hg
    by_cases h64 : p < 64
    · have hd : p / 64 = 0 := Nat.div_eq_of_lt h64
      have hm : p % 64 = p := Nat.mod_eq_of_lt h64
      rw [atBits_cons_lt b bs h64, shiftRight_and_one] at ha
      have hbit : b.testBit p = true := by
        by_cases h : b.testBit p = true
        · exact h
        · rw [Bool.eq_false_iff.2 h] at ha; simp at ha
      have hb64 : b < 2 ^ 64 :=
        lt_of_lt_of_le hb (Nat.pow_le_pow_right (by norm_num) (by omega))
      rw [hd, hm]
      have hset : (b :: bs).set 0 (List.getD (b :: bs) 0 0 &&& compl64 (2 ^ p)) =
          (b &&& compl64 (2 ^ p)) :: bs := by simp
      rw [hset, recountBits_cons, recountBits_cons]
      constructor
      · have := popcount_clear b p hb64 h64 hbit
        omega
      · refine goodBlocks_cons.2 ⟨?_, hg2⟩
        exact lt_of_le_of_lt Nat.and_le_left hb
    · have hd : p / 64 = (p - 64) / 64 + 1 := by omega
      have hm : p % 64 = (p - 64) % 64 := by omega
      rw [atBits_cons_ge b bs (by omega)] at ha
      rw [hd] at hcov
      simp only [List.length_cons] at hcov
      have := ih (L - 64) (p - 64) hg2 (by omega) ha
      rw [hd, hm, List.getD_cons_succ, List.set_cons_succ,
        recountBits_cons, recountBits_cons]
      exact ⟨by have := this.1; omega, goodBlocks_cons.2 ⟨hb, this.2⟩⟩

theorem goodBlocks_replicate : ∀ (n L : Nat), goodBlocks L (List.replicate n 0) = true := by
  intro n
  induction n with
  | zero => intro L; rfl
  | succ n ih =>
    intro L
    rw [List.replicate_succ]
    exact goodBlocks_cons.2 ⟨Nat.pos_pow_of_pos _ (by norm_num), ih (L - 64)⟩

theorem recountBits_replicate (n : Nat) : recountBits (List.replicate n 0) = 0 := by
  induction n with
  | zero => rfl
  | succ n ih =>
    rw [List.replicate_succ, recountBits_cons, ih]
    simp [popcount, pcAux_zero]

/-! ### C7: the cached count under the set/clear discipline -/

theorem atPos_eq_atBits (a : BitArray) (p : Nat) : a.atPos p = atBits a.m_bits p := rfl

theorem validOps_inv :
    ∀ (ops : List SCOp) (a : BitArray),
      a.m_num_bits < M64 →
      a.m_bits.length = (a.m_num_bits - 1) / 64 + 1 →
      goodBlocks a.m_num_bits a.m_bits = true →
      a.m_count = recountBits a.m_bits →
      validOps a ops = true →
      (applyOps a ops).m_count = recountBits (applyOps a ops).m_bits ∧
        goodBlocks (applyOps a ops).m_num_bits (applyOps a ops).m_bits = true ∧
        (applyOps a ops).m_num_bits = a.m_num_bits := by
  intro ops
  induction ops with
  | nil => intro a _ _ h3 h4 _; exact ⟨h4, h3, rfl⟩
  | cons op rest ih =>
    intro a h1 h2 h3 h4 hv
    have hM : M64 = 2 ^ 64 := rfl
    cases op with
    | set p =>
      have hv' : (decide (p < a.m_num_bits) && (a.atPos p == 0) &&
          validOps (a.set p) rest) = true := hv
      simp only [Bool.and_eq_true, decide_eq_true_eq, beq_iff_eq] at hv'
      obtain ⟨⟨hp, ha0⟩, hrest⟩ := hv'
      have hcov : p / 64 < a.m_bits.length := by omega
      have hatb : atBits a.m_bits p = 0 := ha0
      have hso := recount_set_or a.m_bits a.m_num_bits p h3 hp hcov hatb
      have hlt := goodBlocks_recount_lt a.m_bits a.m_num_bits p h3 hp hatb
      have hbits : (a.set p).m_bits =
          a.m_bits.set (p / 64) (a.m_bits.getD (p / 64) 0 ||| 2 ^ (p % 64)) := rfl
      have hcnt : (a.set p).m_count = recountBits (a.set p).m_bits := by
        show (a.m_count + 1) % M64 = _
        rw [h4, hbits, hso.1, Nat.mod_eq_of_lt (by omega)]
      have hgood : goodBlocks (a.set p).m_num_bits (a.set p).m_bits = true := by
        show goodBlocks a.m_num_bits _ = true
        rw [hbits, hso.2]
      have hlen2 : (a.set p).m_bits.length = ((a.set p).m_num_bits - 1) / 64 + 1 := by
        show (a.m_bits.set _ _).length = (a.m_num_bits - 1) / 64 + 1
        rw [List.length_set]
        exact h2
      have hrec := ih (a.set p) h1 hlen2 hgood hcnt hrest
      have hstep : applyOps a (SCOp.set p :: rest) = applyOps (a.set p) rest := rfl
      rw [hstep]
      exact ⟨hrec.1, hrec.2.1, hrec.2.2⟩
    | clr p =>
      have hv' : (decide (p < a.m_num_bits) && (a.atPos p == 1) &&
          validOps (a.clear p) rest) = true := hv
      simp only [Bool.and_eq_true, decide_eq_true_eq, beq_iff_eq] at hv'
      obtain ⟨⟨hp, ha1⟩, hrest⟩ := hv'
      have hcov : p / 64 < a.m_bits.length := by omega
      have hatb : atBits a.m_bits p = 1 := ha1
      have hso := recount_set_and a.m_bits a.m_num_bits p h3 hcov hatb
      have hpos := goodBlocks_recount_pos a.m_bits a.m_num_bits p h3 hatb
      have hbits : (a.clear p).m_bits =
          a.m_bits.set (p / 64) (a.m_bits.getD (p / 64) 0 &&& compl64 (2 ^ (p % 64))) := rfl
      have hcnt : (a.clear p).m_count = recountBits (a.clear p).m_bits := by
        show (if a.m_count = 0 then M64 - 1 else a.m_count - 1) = _
        rw [if_neg (by omega), h4, hbits]
        have := hso.1
        omega
      have hgood : goodBlocks (a.clear p).m_num_bits (a.clear p).m_bits = true := by
        show goodBlocks a.m_num_bits _ = true
        rw [hbits, hso.2]
      have hlen2 : (a.clear p).m_bits.length = ((a.clear p).m_num_bits - 1) / 64 + 1 := by
        show (a.m_bits.set _ _).length = (a.m_num_bits - 1) / 64 + 1
        rw [List.length_set]
        exact h2
      have hrec := ih (a.clear p) h1 hlen2 hgood hcnt hrest
      have hstep : applyOps a (SCOp.clr p :: rest) = applyOps (a.clear p) rest := rfl
      rw [hstep]
      exact ⟨hrec.1, hrec.2.1, hrec.2.2⟩

/-- C7: for every bit array built from a fresh zero-initialized instance by a
sequence of `set`/`clear` calls in which every `set` targets a currently
clear in-range bit and every `clear` a currently set in-range bit, the cached
`count()` equals the exact `recount()`: the blind increment/decrement of the
cache never diverges from the true population count under that discipline.
(`L < 2 ^ 64` reflects the `size_t` domain of `m_num_bits`.) -/
theorem count_eq_recount_of_disciplined (L : Nat) (ops : List SCOp)
    (hL : L < M64) (hv : validOps (mkBitArray L) ops = true) :
    (applyOps (mkBitArray L) ops).count = (applyOps (mkBitArray L) ops).recount := by
  have h1 : (mkBitArray L).m_bits.length = ((mkBitArray L).m_num_bits - 1) / 64 + 1 := by
    simp [mkBitArray]
  have h2 : goodBlocks (mkBitArray L).m_num_bits (mkBitArray L).m_bits = true :=
    goodBlocks_replicate _ _
  have h3 : (mkBitArray L).m_count = recountBits (mkBitArray L).m_bits :=
    (recountBits_replicate _).symm
  exact (validOps_inv ops (mkBitArray L) hL h1 h2 h3 hv).1

/-- Witness for C7: a concrete disciplined sequence on a fresh length-8
array. -/
theorem count_eq_recount_of_disciplined_witness :
    (8 < M64 ∧
      validOps (mkBitArray 8) [SCOp.set 3, SCOp.set 5, SCOp.clr 3] = true) ∧
      (applyOps (mkBitArray 8) [SCOp.set 3, SCOp.set 5, SCOp.clr 3]).count =
        (applyOps (mkBitArray 8) [SCOp.set 3, SCOp.set 5, SCOp.clr 3]).recount :=
  ⟨⟨by decide, by decide⟩,
    count_eq_recount_of_disciplined 8 [SCOp.set 3, SCOp.set 5, SCOp.clr 3]
      (by decide) (by decide)⟩

/-! ### Bit-level lemmas for the rotate development -/

theorem ssub_of_le {a b : Nat} (h : b ≤ a) : ssub a b = a - b := by
  simp [ssub, h]

theorem testBit_shl64 (x s u : Nat) :
    (shl64 x s).testBit u =
      if s ≤ u ∧ u < 64 then x.testBit (u - s) else false := by
  unfold shl64
  split
  · next h =>
    rw [if_neg (by omega)]
    simp
  · next h =>
    have hM : M64 = 2 ^ 64 := rfl
    rw [hM, Nat.testBit_mod_two_pow, Nat.testBit_shiftLeft]
    by_cases h1 : u < 64
    · by_cases h2 : s ≤ u
      · rw [if_pos ⟨h2, h1⟩]
        simp [h1, h2]
      · rw [if_neg (by omega)]
        simp [h2]
    · rw [if_neg (by omega)]
      simp [h1]

theorem testBit_shr64 (x s u : Nat) (hx : x < 2 ^ 64) :
    (shr64 x s).testBit u = x.testBit (s + u) := by
  unfold shr64
  split
  · next h =>
    have : x.testBit (s + u) = false :=
      Nat.testBit_lt_two_pow
        (lt_of_lt_of_le hx (Nat.pow_le_pow_right (by norm_num) (by omega)))
    simp [this]
  · rw [Nat.testBit_shiftRight]

theorem testBit_compl64 (x u : Nat) (hx : x < 2 ^ 64) :
    (compl64 x).testBit u = (decide (u < 64) && !x.testBit u) := by
  rw [compl64, Nat.testBit_xor, testBit_allOnes64]
  by_cases h : u < 64
  · simp [h]
  · have : x.testBit u = false :=
      Nat.testBit_lt_two_pow
        (lt_of_lt_of_le hx (Nat.pow_le_pow_right (by norm_num) (by omega)))
    simp [h, this]

theorem shl64_lt (x s : Nat) : shl64 x s < 2 ^ 64 := by
  unfold shl64
  split
  · exact Nat.pos_pow_of_pos _ (by norm_num)
  · exact Nat.mod_lt _ (Nat.pos_pow_of_pos _ (by norm_num))

theorem win_lt (x y t : Nat) (hx : x < 2 ^ 64) : win x y t < 2 ^ 64 := by
  unfold win
  apply Nat.or_lt_two_pow
  · split
    · exact Nat.pos_pow_of_pos _ (by norm_num)
    · refine lt_of_le_of_lt ?_ hx
      rw [Nat.shiftRight_eq_div_pow]
      exact Nat.div_le_self _ _
  · split
    · exact Nat.pos_pow_of_pos _ (by norm_num)
    · exact shl64_lt _ _

theorem testBit_win (x y t u : Nat) (hx : x < 2 ^ 64) (hy : y < 2 ^ 64)
    (ht : t ≤ 64) (hu : u < 64) :
    (win x y t).testBit u =
      if t + u < 64 then x.testBit (t + u) else y.testBit (t + u - 64) := by
  unfold win
  rw [Nat.testBit_or]
  by_cases h64 : 64 ≤ t
  · have ht64 : t = 64 := by omega
    subst ht64
    have h1 : ssub 64 64 = 0 := by simp [ssub_of_le]
    have h2 : shl64 y 0 = y := by
      unfold shl64
      rw [if_neg (by omega), Nat.shiftLeft_zero]
      exact Nat.mod_eq_of_lt hy
    have h3 : 64 + u - 64 = u := by omega
    rw [if_pos (le_refl 64), if_neg (by omega), h1, h2, if_neg (by omega), h3]
    simp
  · rw [if_neg h64]
    by_cases ht0 : t = 0
    · subst ht0
      rw [if_pos rfl, if_pos (by omega)]
      simp
    · have hs : ssub 64 t = 64 - t := ssub_of_le (by omega)
      rw [if_neg ht0, Nat.testBit_shiftRight, testBit_shl64, hs]
      by_cases hc : t + u < 64
      · rw [if_pos hc, if_neg (by omega)]
        simp
      · have hxf : x.testBit (t + u) = false :=
          Nat.testBit_lt_two_pow
            (lt_of_lt_of_le hx (Nat.pow_le_pow_right (by norm_num) (by omega)))
        have h4 : u - (64 - t) = t + u - 64 := by omega
        rw [if_neg hc, hxf, if_pos (by omega), h4]
        simp

theorem bitOf_cons_lt {g : Nat} (b : Nat) (bs : List Nat) (h : g < 64) :
    bitOf (b :: bs) g = b.testBit g := by
  simp [bitOf, Nat.div_eq_of_lt h, Nat.mod_eq_of_lt h]

theorem bitOf_cons_ge {g : Nat} (b : Nat) (bs : List Nat) (h : 64 ≤ g) :
    bitOf (b :: bs) g = bitOf bs (g - 64) := by
  have h1 : g / 64 = (g - 64) / 64 + 1 := by omega
  have h2 : g % 64 = (g - 64) % 64 := by omega
  rw [bitOf, bitOf, h1, h2, List.getD_cons_succ]

theorem atBits_eq_bitOf (bs : List Nat) (p : Nat) :
    atBits bs p = if bitOf bs p then 1 else 0 := by
  rw [atBits, bitOf, shiftRight_and_one]

theorem goodBlocks_getD_lt :
    ∀ (bs : List Nat) (L j : Nat), goodBlocks L bs = true → bs.getD j 0 < 2 ^ 64 := by
  intro bs
  induction bs with
  | nil => intro L j _; simp [List.getD]
  | cons b bs ih =>
    intro L j hg
    obtain ⟨hb, hg2⟩ := goodBlocks_cons.1 hg
    cases j with
    | zero =>
      exact lt_of_lt_of_le hb (Nat.pow_le_pow_right (by norm_num) (by omega))
    | succ j =>
      rw [List.getD_cons_succ]
      exact ih (L - 64) j hg2

theorem goodBlocks_bitOf_ge :
    ∀ (bs : List Nat) (L g : Nat), goodBlocks L bs = true → L ≤ g →
      bitOf bs g = false := by
  intro bs
  induction bs with
  | nil => intro L g _ _; simp [bitOf, List.getD]
  | cons b bs ih =>
    intro L g hg hge
    obtain ⟨hb, hg2⟩ := goodBlocks_cons.1 hg
    by_cases h64 : g < 64
    · rw [bitOf_cons_lt b bs h64]
      refine Nat.testBit_lt_two_pow (lt_of_lt_of_le hb ?_)
      exact Nat.pow_le_pow_right (by norm_num) (by omega)
    · rw [bitOf_cons_ge b bs (by omega)]
      exact ih (L - 64) (g - 64) hg2 (by omega)

theorem goodBlocks_of_bits :
    ∀ (bs : List Nat) (L : Nat),
      (∀ j, j < bs.length → bs.getD j 0 < 2 ^ 64) →
      (∀ g, L ≤ g → g < 64 * bs.length → bitOf bs g = false) →
      goodBlocks L bs = true := by
  intro bs
  induction bs with
  | nil => intro L _ _; rfl
  | cons b bs ih =>
    intro L hlt hpad
    refine goodBlocks_cons.2 ⟨?_, ?_⟩
    · rcases Nat.le_total 64 L with hL | hL
      · rw [min_eq_left hL]
        exact hlt 0 (by simp)
      · rw [min_eq_right hL]
        apply Nat.lt_pow_two_of_testBit
        intro i hi
        by_cases hi64 : i < 64
        · have := hpad i (by omega) (by simp; omega)
          rwa [bitOf_cons_lt b bs hi64] at this
        · exact Nat.testBit_lt_two_pow
            (lt_of_lt_of_le (hlt 0 (by simp))
              (Nat.pow_le_pow_right (by norm_num) (by omega)))
    · apply ih (L - 64)
      · intro j hj
        have := hlt (j + 1) (by simp; omega)
        rwa [List.getD_cons_succ] at this
      · intro g hge hlt2
        have := hpad (g + 64) (by omega) (by simp; omega)
        rwa [bitOf_cons_ge b bs (by omega), Nat.add_sub_cancel] at this

/-! ### The rotate loop: unfolding and generic runs -/

theorem rotGo_zero (B : List Nat) (nb lb sblk sbit opos iblk ibit : Nat)
    (out : List Nat) : rotGo B nb lb sblk sbit 0 opos iblk ibit out = out := rfl

theorem rotGo_succ_lt (B : List Nat) (nb lb sblk sbit fuel opos iblk ibit : Nat)
    (out : List Nat) (h : opos < nb) :
    rotGo B nb lb sblk sbit (fuel + 1) opos iblk ibit out =
      rotGo B nb lb sblk sbit fuel
        (rotIter B nb lb sblk sbit opos iblk ibit out).1
        (rotIter B nb lb sblk sbit opos iblk ibit out).2.1
        (rotIter B nb lb sblk sbit opos iblk ibit out).2.2.1
        (rotIter B nb lb sblk sbit opos iblk ibit out).2.2.2 := by
  simp [rotGo, h]

theorem rotGo_stop (B : List Nat) (nb lb sblk sbit fuel opos iblk ibit : Nat)
    (out : List Nat) (h : ¬opos < nb) :
    rotGo B nb lb sblk sbit (fuel + 1) opos iblk ibit out = out := by
  simp [rotGo, h]

theorem rotIter_generic (B : List Nat) (nb lb sblk sbit opos iblk ibit : Nat)
    (out : List Nat)
    (hA : ¬(sbit = ibit ∧ iblk = nb - 1)) (hB : iblk + 1 ≠ nb)
    (hC : iblk + 1 ≠ nb - 1) (hD : iblk + 1 ≠ sblk) :
    rotIter B nb lb sblk sbit opos iblk ibit out =
      (opos + 1, iblk + 1, ibit,
        out.set opos (win (B.getD iblk 0) (B.getD (iblk + 1) 0) ibit)) := by
  unfold rotIter rotClose win
  simp only [if_neg hA, if_neg hB, if_neg hD]
  rw [if_neg (by intro hcon; exact hC hcon.1)]

theorem getD_set (l : List Nat) (i q v : Nat) :
    (l.set i v).getD q 0 = if i = q ∧ i < l.length then v else l.getD q 0 := by
  induction l generalizing i q with
  | nil => simp
  | cons b bs ih =>
    cases i with
    | zero =>
      cases q with
      | zero => simp
      | succ q => simp
    | succ i =>
      cases q with
      | zero => simp
      | succ q =>
        simp only [List.set_cons_succ, List.getD_cons_succ, ih i q,
          List.length_cons]
        by_cases h : i = q ∧ i < bs.length
        · rw [if_pos h, if_pos (by omega)]
        · rw [if_neg h, if_neg (by omega)]

theorem genWrites_length (B : List Nat) :
    ∀ (m : Nat) (out : List Nat) (opos j t : Nat),
      (genWrites B out opos j t m).length = out.length := by
  intro m
  induction m with
  | zero => intro out opos j t; rfl
  | succ m ih =>
    intro out opos j t
    rw [genWrites, ih, List.length_set]

theorem genWrites_getD (B : List Nat) :
    ∀ (m : Nat) (out : List Nat) (opos j t q : Nat), opos + m ≤ out.length →
      (genWrites B out opos j t m).getD q 0 =
        if opos ≤ q ∧ q < opos + m then
          win (B.getD (j + (q - opos)) 0) (B.getD (j + (q - opos) + 1) 0) t
        else out.getD q 0 := by
  intro m
  induction m with
  | zero =>
    intro out opos j t q _
    rw [genWrites, if_neg (by omega)]
  | succ m ih =>
    intro out opos j t q hlen
    rw [genWrites, ih _ _ _ _ _ (by rw [List.length_set]; omega), getD_set]
    by_cases h1 : opos + 1 ≤ q ∧ q < opos + 1 + m
    · rw [if_pos h1, if_pos (by omega)]
      have : q - opos = (q - (opos + 1)) + 1 := by omega
      rw [this]
      have e1 : j + 1 + (q - (opos + 1)) = j + (q - (opos + 1) + 1) := by omega
      rw [e1]
    · rw [if_neg h1]
      by_cases h2 : opos = q
      · subst h2
        rw [if_pos ⟨rfl, by omega⟩, if_pos (by omega)]
        simp
      · rw [if_neg (by intro hcon; exact h2 hcon.1), if_neg (by omega)]

theorem rotGo_run (B : List Nat) (nb lb sblk sbit : Nat) :
    ∀ (m fuel opos j t : Nat) (out : List Nat),
      m ≤ fuel →
      (∀ i, i < m → opos + i < nb) →
      (∀ i, i < m → ¬(sbit = t ∧ j + i = nb - 1)) →
      (∀ i, i < m → j + i + 1 ≠ nb) →
      (∀ i, i < m → j + i + 1 ≠ nb - 1) →
      (∀ i, i < m → j + i + 1 ≠ sblk) →
      rotGo B nb lb sblk sbit fuel opos j t out =
        rotGo B nb lb sblk sbit (fuel - m) (opos + m) (j + m) t
          (genWrites B out opos j t m) := by
  intro m
  induction m with
  | zero =>
    intro fuel opos j t out _ _ _ _ _ _
    simp [genWrites]
  | succ m ih =>
    intro fuel opos j t out hf h1 h2 h3 h4 h5
    cases fuel with
    | zero => omega
    | succ fuel =>
      rw [rotGo_succ_lt _ _ _ _ _ _ _ _ _ _ (by simpa using h1 0 (by omega))]
      rw [rotIter_generic _ _ _ _ _ _ _ _ _
        (by simpa using h2 0 (by omega)) (by simpa using h3 0 (by omega))
        (by simpa using h4 0 (by omega)) (by simpa using h5 0 (by omega))]
      have hrec := ih fuel (opos + 1) (j + 1) t
        (out.set opos (win (B.getD j 0) (B.getD (j + 1) 0) t))
        (by omega)
        (by intro i hi; have := h1 (i + 1) (by omega); omega)
        (by intro i hi; have := h2 (i + 1) (by omega);
            intro hcon; exact this ⟨hcon.1, by omega⟩)
        (by intro i hi; have := h3 (i + 1) (by omega); omega)
        (by intro i hi; have := h4 (i + 1) (by omega); omega)
        (by intro i hi; have := h5 (i + 1) (by omega); omega)
      dsimp only at hrec ⊢
      rw [hrec]
      have e1 : fuel - m = fuel + 1 - (m + 1) := by omega
      have e2 : opos + 1 + m = opos + (m + 1) := by omega
      have e3 : j + 1 + m = j + (m + 1) := by omega
      rw [e1, e2, e3]
      rfl

/-! ### Padded-position bit reading -/

theorem bitOf_block (B : List Nat) (j v : Nat) (hv : v < 64) :
    (B.getD j 0).testBit v = bitOf B (64 * j + v) := by
  have e1 : (64 * j + v) / 64 = j := by omega
  have e2 : (64 * j + v) % 64 = v := by omega
  rw [bitOf, e1, e2]

theorem bitOf_ge_len (B : List Nat) (g : Nat) (h : 64 * B.length ≤ g) :
    bitOf B g = false := by
  rw [bitOf, List.getD_eq_default]
  · exact Nat.zero_testBit _
  · omega

theorem testBit_win_bitOf (B : List Nat) (j t u : Nat)
    (hB : ∀ q, B.getD q 0 < 2 ^ 64) (ht : t ≤ 64) (hu : u < 64) :
    (win (B.getD j 0) (B.getD (j + 1) 0) t).testBit u = bitOf B (64 * j + t + u) := by
  rw [testBit_win _ _ _ _ (hB j) (hB (j + 1)) ht hu]
  by_cases h : t + u < 64
  · rw [if_pos h, bitOf_block B j (t + u) h]
    have : 64 * j + t + u = 64 * j + (t + u) := by omega
    rw [this]
  · rw [if_neg h, bitOf_block B (j + 1) (t + u - 64) (by omega)]
    have : 64 * (j + 1) + (t + u - 64) = 64 * j + t + u := by omega
    rw [this]

theorem mod_cast_lt {L x : Nat} (h : x < L) : x % L = x := Nat.mod_eq_of_lt h

theorem mod_cast_wrap {L x : Nat} (h1 : L ≤ x) (h2 : x < 2 * L) :
    x % L = x - L := by
  rw [Nat.mod_eq_sub_mod h1, Nat.mod_eq_of_lt (by omega)]

theorem compl64_lt (x : Nat) (hx : x < 2 ^ 64) : compl64 x < 2 ^ 64 :=
  Nat.xor_lt_two_pow (by rw [allOnes64]; omega) hx

/-! ### Rotate-loop traversal: the single-block case -/

theorem rotGo_case_nb1 (B out0 : List Nat) (L n : Nat)
    (hg : goodBlocks L B = true) (hlen : B.length = 1) (hout : out0.length = 1)
    (hL64 : L ≤ 64) (hn1 : 1 ≤ n) (hnL : n < L) :
    ((rotGo B 1 (L % 64) ((L - n) / 64) ((L - n) % 64) 1 0
        ((L - n) / 64) ((L - n) % 64) out0).length = 1 ∧
      (∀ q, q < 1 →
        (rotGo B 1 (L % 64) ((L - n) / 64) ((L - n) % 64) 1 0
          ((L - n) / 64) ((L - n) % 64) out0).getD q 0 < 2 ^ 64) ∧
      ∀ g, g < 64 →
        bitOf (rotGo B 1 (L % 64) ((L - n) / 64) ((L - n) % 64) 1 0
          ((L - n) / 64) ((L - n) % 64) out0) g =
          (if g < L then bitOf B ((g + (L - n)) % L) else false)) := by
  have hB0 : B.getD 0 0 < 2 ^ 64 := goodBlocks_getD_lt B L 0 hg
  have hsblk : (L - n) / 64 = 0 := by omega
  have hsbit : (L - n) % 64 = L - n := by omega
  rw [hsblk, hsbit]
  rw [rotGo_succ_lt _ _ _ _ _ _ _ _ _ _ (by omega)]
  by_cases hlb : L % 64 = 0
  · -- L = 64: full single block, plain double-shift merge
    have hL : L = 64 := by omega
    subst hL
    have hiter : rotIter B 1 (64 % 64) 0 (64 - n) 0 0 (64 - n) out0 =
        (1, 0, 64 - n,
          out0.set 0 (win (B.getD 0 0) (B.getD 0 0) (64 - n))) := by
      have c1 : ¬(64 ≤ 64 - n) := by omega
      have c2 : ¬(64 - n = 0) := by omega
      unfold rotIter rotClose win
      simp [c1, c2]
    rw [hiter]
    dsimp only
    rw [rotGo_zero]
    refine ⟨by rw [List.length_set]; exact hout, ?_, ?_⟩
    · intro q hq
      interval_cases q
      rw [getD_set, if_pos ⟨rfl, by omega⟩]
      exact win_lt _ _ _ hB0
    · intro g hg64
      have e1 : g / 64 = 0 := by omega
      have e2 : g % 64 = g := by omega
      rw [bitOf, e1, e2, getD_set, if_pos ⟨rfl, by omega⟩,
        testBit_win _ _ _ _ hB0 hB0 (by omega) hg64]
      rw [if_pos hg64]
      by_cases hc : 64 - n + g < 64
      · rw [if_pos hc, mod_cast_lt (by omega : g + (64 - n) < 64), bitOf,
          (by omega : (g + (64 - n)) / 64 = 0),
          (by omega : (g + (64 - n)) % 64 = g + (64 - n))]
        congr 1
        omega
      · rw [if_neg hc,
          mod_cast_wrap (by omega : 64 ≤ g + (64 - n)) (by omega), bitOf,
          (by omega : (g + (64 - n) - 64) / 64 = 0),
          (by omega : (g + (64 - n) - 64) % 64 = g + (64 - n) - 64)]
        congr 1
        omega
  · -- L < 64: partial single block, masked merge
    have hLlt : L < 64 := by omega
    have hlbL : L % 64 = L := by omega
    have hd1 : ssub L (L - n) = n := by
      rw [ssub_of_le (by omega)]; omega
    have hd2 : ssub 64 n = 64 - n := ssub_of_le (by omega)
    have hd3 : ssub 64 (64 - n) = n := by
      rw [ssub_of_le (by omega)]; omega
    have c1 : ¬(64 ≤ L - n) := by omega
    have c2 : ¬(64 - n = 0) := by omega
    have c3 : L - n ≤ 64 - n := by omega
    have c6 : ¬(L = 0) := by omega
    have hiter : rotIter B 1 (L % 64) 0 (L - n) 0 0 (L - n) out0 =
        (1, 0, 64 - n,
          out0.set 0
            (((B.getD 0 0 >>> (L - n)) |||
              (shl64 (B.getD 0 0) n &&& (allOnes64 >>> (64 - L)))) &&&
              compl64 (shl64 allOnes64 L))) := by
      unfold rotIter rotClose
      simp [hlbL, hd1, hd2, hd3, c1, c2, c3, c6]
    rw [hiter]
    dsimp only
    rw [rotGo_zero]
    have hval : ∀ u : Nat, u < 64 →
        (((B.getD 0 0 >>> (L - n)) |||
          (shl64 (B.getD 0 0) n &&& (allOnes64 >>> (64 - L)))) &&&
          compl64 (shl64 allOnes64 L)).testBit u =
        (if u < L then bitOf B ((u + (L - n)) % L) else false) := by
      intro u hu64
      rw [Nat.testBit_and, testBit_compl64 _ _ (shl64_lt _ _),
        testBit_shl64, Nat.testBit_or, Nat.testBit_shiftRight, Nat.testBit_and,
        testBit_shl64, Nat.testBit_shiftRight, testBit_allOnes64,
        testBit_allOnes64]
      by_cases huL : u < L
      · rw [if_pos huL]
        have hE : (decide (u < 64) &&
            !(if L ≤ u ∧ u < 64 then decide (u - L < 64) else false)) = true := by
          rw [if_neg (by omega)]
          simp [hu64]
        rw [hE, Bool.and_true]
        have hD : decide (64 - L + u < 64) = true := by
          simp; omega
        rw [hD, Bool.and_true]
        by_cases hc : u + (L - n) < L
        · rw [mod_cast_lt hc, bitOf,
            (by omega : (u + (L - n)) / 64 = 0),
            (by omega : (u + (L - n)) % 64 = u + (L - n))]
          have hC : (if n ≤ u ∧ u < 64 then
              (B.getD 0 0).testBit (u - n) else false) = false := by
            rw [if_neg (by omega)]
          rw [hC, Bool.or_false]
          congr 1
          omega
        · rw [mod_cast_wrap (by omega : L ≤ u + (L - n)) (by omega), bitOf,
            (by omega : (u + (L - n) - L) / 64 = 0),
            (by omega : (u + (L - n) - L) % 64 = u + (L - n) - L)]
          have hA : (B.getD 0 0).testBit (L - n + u) = false := by
            by_cases hbig : L - n + u < 64
            · have := goodBlocks_bitOf_ge B L (L - n + u) hg (by omega)
              rwa [bitOf, (by omega : (L - n + u) / 64 = 0),
                (by omega : (L - n + u) % 64 = L - n + u)] at this
            · exact Nat.testBit_lt_two_pow
                (lt_of_lt_of_le hB0 (Nat.pow_le_pow_right (by norm_num) (by omega)))
          rw [hA, Bool.false_or, if_pos (by omega : n ≤ u ∧ u < 64)]
          congr 1
          omega
      · rw [if_neg huL]
        have hE : (decide (u < 64) &&
            !(if L ≤ u ∧ u < 64 then decide (u - L < 64) else false)) = false := by
          rw [if_pos (by omega : L ≤ u ∧ u < 64)]
          simp
          omega
        rw [hE, Bool.and_false]
    refine ⟨by rw [List.length_set]; exact hout, ?_, ?_⟩
    · intro q hq
      interval_cases q
      rw [getD_set, if_pos ⟨rfl, by omega⟩]
      exact Nat.and_lt_two_pow _ (compl64_lt _ (shl64_lt _ _))
    · intro g hg64
      have e1 : g / 64 = 0 := by omega
      have e2 : g % 64 = g := by omega
      rw [bitOf, e1, e2, getD_set, if_pos ⟨rfl, by omega⟩]
      exact hval g hg64

/-! ### Rotate-loop traversal: full-block lengths (`L = 64 * nb`) -/

theorem and_allOnes64 (x : Nat) (hx : x < 2 ^ 64) : x &&& allOnes64 = x := by
  rw [allOnes64]
  exact Nat.and_pow_two_sub_one_of_lt_two_pow hx

theorem shr64_of_lt {s : Nat} (x : Nat) (hs : s < 64) : shr64 x s = x >>> s := by
  rw [shr64, if_neg (by omega)]

theorem mod_mul64 (a r nb : Nat) (hr : r < 64) (hnb : 0 < nb) :
    (64 * a + r) % (64 * nb) = 64 * (a % nb) + r := by
  conv_lhs => rw [← Nat.div_add_mod a nb]
  have e : 64 * (nb * (a / nb) + a % nb) + r =
      (64 * (a % nb) + r) + (64 * nb) * (a / nb) := by ring
  rw [e, Nat.add_mul_mod_self_left]
  have h1 : a % nb < nb := Nat.mod_lt _ hnb
  exact Nat.mod_eq_of_lt (by omega)

theorem rotGo_eval (B : List Nat) (nb lb sblk sbit fuel opos iblk ibit : Nat)
    (out : List Nat) (hf : 0 < fuel) (h : opos < nb) :
    rotGo B nb lb sblk sbit fuel opos iblk ibit out =
      rotGo B nb lb sblk sbit (fuel - 1)
        (rotIter B nb lb sblk sbit opos iblk ibit out).1
        (rotIter B nb lb sblk sbit opos iblk ibit out).2.1
        (rotIter B nb lb sblk sbit opos iblk ibit out).2.2.1
        (rotIter B nb lb sblk sbit opos iblk ibit out).2.2.2 := by
  obtain ⟨f, rfl⟩ : ∃ f, fuel = f + 1 := ⟨fuel - 1, by omega⟩
  rw [rotGo_succ_lt _ _ _ _ _ _ _ _ _ _ h, Nat.add_sub_cancel]

theorem rotGo_exit (B : List Nat) (nb lb sblk sbit fuel opos iblk ibit : Nat)
    (out : List Nat) (h : ¬opos < nb) :
    rotGo B nb lb sblk sbit fuel opos iblk ibit out = out := by
  cases fuel with
  | zero => rfl
  | succ f => exact rotGo_stop _ _ _ _ _ _ _ _ _ _ h

theorem compl_shl_allOnes_wrap (t : Nat) (h0 : t ≠ 0) (h64 : t < 64) :
    compl64 (shl64 allOnes64 (ssub 0 t)) = allOnes64 := by
  have h1 : ssub 0 t = M64 - t := by
    unfold ssub
    rw [if_neg (by omega)]
    omega
  have h2 : shl64 allOnes64 (M64 - t) = 0 := by
    unfold shl64
    rw [if_pos (by unfold M64; omega)]
  rw [h1, h2]
  unfold compl64
  exact Nat.xor_zero _

theorem shr64_and_allOnes (x t : Nat) (hx : x < 2 ^ 64) (ht : t < 64) :
    shr64 x t &&& allOnes64 = x >>> t := by
  rw [shr64_of_lt x ht]
  have h1 : x >>> t ≤ x := by
    rw [Nat.shiftRight_eq_div_pow]
    exact Nat.div_le_self _ _
  exact and_allOnes64 _ (lt_of_le_of_lt h1 hx)

set_option maxHeartbeats 2000000 in
theorem rotGo_lb0_blocks (B out0 : List Nat) (L n nb : Nat)
    (hg : goodBlocks L B = true) (hlen : B.length = nb) (hout : out0.length = nb)
    (hnb : 2 ≤ nb) (hL : L = 64 * nb) (hn1 : 1 ≤ n) (hnL : n < L) :
    (rotGo B nb (L % 64) ((L - n) / 64) ((L - n) % 64) nb 0 ((L - n) / 64)
        ((L - n) % 64) out0).length = nb ∧
      ∀ q, q < nb →
        (rotGo B nb (L % 64) ((L - n) / 64) ((L - n) % 64) nb 0 ((L - n) / 64)
            ((L - n) % 64) out0).getD q 0 =
          win (B.getD (((L - n) / 64 + q) % nb) 0)
            (B.getD (((L - n) / 64 + q + 1) % nb) 0) ((L - n) % 64) := by
  have hBq : ∀ q, B.getD q 0 < 2 ^ 64 := fun q => goodBlocks_getD_lt B L q hg
  have hlb : L % 64 = 0 := by omega
  rw [hlb]
  set s := L - n with hs
  set sblk := s / 64 with hsblk
  set sbit := s % 64 with hsbit
  have hs1 : 1 ≤ s := by omega
  have hsL : s < 64 * nb := by omega
  have hsblknb : sblk < nb := by omega
  have hsbit64 : sbit < 64 := by omega
  have hsplit : s = 64 * sblk + sbit := by omega
  by_cases hU1 : sblk = nb - 1
  · -- start inside the last block
    have hiter0 : rotIter B nb 0 sblk sbit 0 sblk sbit out0 =
        (1, 0, sbit,
          out0.set 0 (win (B.getD sblk 0) (B.getD 0 0) sbit)) := by
      have c1 : ¬(64 ≤ sbit) := by omega
      have c2 : sblk + 1 = nb := by omega
      have c3 : ¬(0 = nb - 1) := by omega
      have c2n : nb - 1 + 1 = nb := by omega
      unfold rotIter rotClose win
      simp [c1, c2, c2n, c3, hU1]
    have hrun := rotGo_run B nb 0 sblk sbit (nb - 2) (nb - 1) 1 0 sbit
      (out0.set 0 (win (B.getD sblk 0) (B.getD 0 0) sbit))
      (by omega)
      (by intro i hi; omega)
      (by intro i hi; intro hcon; omega)
      (by intro i hi; omega)
      (by intro i hi; omega)
      (by intro i hi; omega)
    have hclose : rotIter B nb 0 sblk sbit (nb - 1) (nb - 2) sbit
        (genWrites B (out0.set 0 (win (B.getD sblk 0) (B.getD 0 0) sbit)) 1 0 sbit (nb - 2)) =
        (nb, sblk, sbit,
          (genWrites B (out0.set 0 (win (B.getD sblk 0) (B.getD 0 0) sbit)) 1 0 sbit
            (nb - 2)).set (nb - 1)
            (win (B.getD (nb - 2) 0) (B.getD (nb - 1) 0) sbit)) := by
      have c1 : ¬(64 ≤ sbit) := by omega
      have c2 : ¬(nb - 2 = nb - 1) := by omega
      have c3 : ¬(nb - 2 + 1 = nb) := by omega
      have c4 : nb - 2 + 1 = nb - 1 := by omega
      have c5 : ¬(nb - 1 ≠ sblk) := by omega
      have c6 : nb - 1 + 1 = nb := by omega
      have c7 : ¬(nb - 1 = nb) := by omega
      unfold rotIter rotClose win
      simp [c1, c2, c3, c4, c5, c6, c7, hU1]
    rw [rotGo_eval _ _ _ _ _ _ _ _ _ _ (by omega) (by omega), hiter0]
    dsimp only
    rw [hrun, (by omega : nb - 1 - (nb - 2) = 1), (by omega : 1 + (nb - 2) = nb - 1),
      (by omega : 0 + (nb - 2) = nb - 2)]
    rw [rotGo_eval _ _ _ _ _ _ _ _ _ _ (by omega) (by omega), hclose]
    dsimp only
    rw [(by omega : (1 : Nat) - 1 = 0), rotGo_zero]
    have hlen1 : (out0.set 0 (win (B.getD sblk 0) (B.getD 0 0) sbit)).length = nb := by
      rw [List.length_set]; exact hout
    have hlen2 : (genWrites B (out0.set 0 (win (B.getD sblk 0) (B.getD 0 0) sbit))
        1 0 sbit (nb - 2)).length = nb := by
      rw [genWrites_length]; exact hlen1
    constructor
    · rw [List.length_set]; exact hlen2
    · intro q hq
      rw [getD_set]
      by_cases hq0 : q = nb - 1
      · subst hq0
        rw [if_pos ⟨rfl, by omega⟩, hU1,
          mod_cast_wrap (by omega) (by omega),
          mod_cast_wrap (by omega) (by omega),
          (by omega : nb - 1 + (nb - 1) - nb = nb - 2),
          (by omega : nb - 1 + (nb - 1) + 1 - nb = nb - 1)]
      · rw [if_neg (by intro hcon; exact hq0 hcon.1.symm),
          genWrites_getD _ _ _ _ _ _ _ (by omega)]
        by_cases hq1 : q = 0
        · subst hq1
          rw [if_neg (by omega), getD_set, if_pos ⟨rfl, by omega⟩, hU1,
            mod_cast_lt (by omega), (by omega : nb - 1 + 0 = nb - 1)]
          have : (nb - 1 + 0 + 1) % nb = 0 := by
            rw [(by omega : nb - 1 + 0 + 1 = nb)]
            exact Nat.mod_self nb
          rw [this]
        · rw [if_pos (by omega), hU1,
            (by omega : 0 + (q - 1) = q - 1), (by omega : q - 1 + 1 = q),
            mod_cast_wrap (by omega) (by omega),
            mod_cast_wrap (by omega) (by omega),
            (by omega : nb - 1 + q - nb = q - 1),
            (by omega : nb - 1 + q + 1 - nb = q)]
  · -- start strictly before the last block
    have hsb : sblk ≤ nb - 2 := by omega
    have hrunA := rotGo_run B nb 0 sblk sbit (nb - 2 - sblk) nb 0 sblk sbit out0
      (by omega) (by intro i hi; omega) (by intro i hi hcon; omega)
      (by intro i hi; omega) (by intro i hi; omega) (by intro i hi; omega)
    rw [(by omega : 0 + (nb - 2 - sblk) = nb - 2 - sblk),
      (by omega : sblk + (nb - 2 - sblk) = nb - 2),
      (by omega : nb - (nb - 2 - sblk) = sblk + 2)] at hrunA
    by_cases hU2 : sbit = 0
    · -- aligned start: the wrap is a pure block permutation
      rw [hU2] at hrunA ⊢
      have hsblk1 : 1 ≤ sblk := by omega
      have hiterA : ∀ o : List Nat, rotIter B nb 0 sblk 0 (nb - 2 - sblk) (nb - 2) 0 o =
          (nb - 2 - sblk + 1, nb - 1, 0,
            o.set (nb - 2 - sblk) (win (B.getD (nb - 2) 0) (B.getD (nb - 1) 0) 0)) := by
        intro o
        have c1 : ¬(nb - 2 = nb - 1) := by omega
        have c2 : ¬(nb - 2 + 1 = nb) := by omega
        have c3 : nb - 2 + 1 = nb - 1 := by omega
        have c4 : nb - 1 ≠ sblk := by omega
        have c5 : ¬(nb - 1 = nb) := by omega
        unfold rotIter rotClose win
        simp [c1, c2, c3, c4, c5]
      have hiterB : ∀ o : List Nat, rotIter B nb 0 sblk 0 (nb - 2 - sblk + 1) (nb - 1) 0 o =
          (nb - 2 - sblk + 2, 0, 0,
            o.set (nb - 2 - sblk + 1) (win (B.getD (nb - 1) 0) (B.getD 0 0) 0)) := by
        intro o
        have c1 : nb - 1 + 1 = nb := by omega
        have c2 : ¬(0 = nb - 1) := by omega
        have c3 : ¬((0 : Nat) = sblk) := by omega
        have c4 : ¬(nb - 1 = nb) := by omega
        unfold rotIter rotClose win
        simp [c1, c2, c3, c4]
      have hiterC : ∀ o : List Nat, rotIter B nb 0 sblk 0 (nb - 1) (sblk - 1) 0 o =
          (nb, sblk, 0,
            o.set (nb - 1) (win (B.getD (sblk - 1) 0) (B.getD sblk 0) 0)) := by
        intro o
        have c1 : ¬(sblk - 1 = nb - 1) := by omega
        have c2 : sblk - 1 + 1 = sblk := by omega
        have c3 : ¬(sblk = nb) := by omega
        have c4 : ¬(sblk = nb - 1) := by omega
        have c5 : nb - 1 + 1 = nb := by omega
        unfold rotIter rotClose win
        simp [c1, c2, c3, c4, c5]
      have hrunB := rotGo_run B nb 0 sblk 0 (sblk - 1) sblk (nb - 2 - sblk + 2) 0 0
        (((genWrites B out0 0 sblk 0 (nb - 2 - sblk)).set (nb - 2 - sblk)
            (win (B.getD (nb - 2) 0) (B.getD (nb - 1) 0) 0)).set (nb - 2 - sblk + 1)
            (win (B.getD (nb - 1) 0) (B.getD 0 0) 0))
        (by omega) (by intro i hi; omega) (by intro i hi hcon; omega)
        (by intro i hi; omega) (by intro i hi; omega) (by intro i hi; omega)
      rw [(by omega : 0 + (sblk - 1) = sblk - 1),
        (by omega : nb - 2 - sblk + 2 + (sblk - 1) = nb - 1),
        (by omega : sblk - (sblk - 1) = 1)] at hrunB
      rw [hrunA, rotGo_eval _ _ _ _ _ _ _ _ _ _ (by omega) (by omega), hiterA]
      dsimp only
      rw [(by omega : sblk + 2 - 1 = sblk + 1),
        rotGo_eval _ _ _ _ _ _ _ _ _ _ (by omega) (by omega), hiterB]
      dsimp only
      rw [(by omega : sblk + 1 - 1 = sblk), hrunB,
        rotGo_eval _ _ _ _ _ _ _ _ _ _ (by omega) (by omega), hiterC]
      dsimp only
      rw [(by omega : (1 : Nat) - 1 = 0), rotGo_zero]
      have hl0 : (genWrites B out0 0 sblk 0 (nb - 2 - sblk)).length = nb := by
        rw [genWrites_length]; exact hout
      have hl1 : (((genWrites B out0 0 sblk 0 (nb - 2 - sblk)).set (nb - 2 - sblk)
          (win (B.getD (nb - 2) 0) (B.getD (nb - 1) 0) 0)).set (nb - 2 - sblk + 1)
          (win (B.getD (nb - 1) 0) (B.getD 0 0) 0)).length = nb := by
        rw [List.length_set, List.length_set]; exact hl0
      have hl2 : (genWrites B (((genWrites B out0 0 sblk 0 (nb - 2 - sblk)).set (nb - 2 - sblk)
          (win (B.getD (nb - 2) 0) (B.getD (nb - 1) 0) 0)).set (nb - 2 - sblk + 1)
          (win (B.getD (nb - 1) 0) (B.getD 0 0) 0)) (nb - 2 - sblk + 2) 0 0
          (sblk - 1)).length = nb := by
        rw [genWrites_length]; exact hl1
      have hl0a : ((genWrites B out0 0 sblk 0 (nb - 2 - sblk)).set (nb - 2 - sblk)
          (win (B.getD (nb - 2) 0) (B.getD (nb - 1) 0) 0)).length = nb := by
        rw [List.length_set]; exact hl0
      constructor
      · rw [List.length_set]; exact hl2
      · intro q hq
        rw [getD_set]
        by_cases hq4 : q = nb - 1
        · subst hq4
          rw [if_pos ⟨rfl, by rw [hl2]; omega⟩,
            mod_cast_wrap (by omega) (by omega),
            (by omega : sblk + (nb - 1) - nb = sblk - 1),
            mod_cast_wrap (by omega) (by omega),
            (by omega : sblk + (nb - 1) + 1 - nb = sblk)]
        · rw [if_neg (by intro hcon; exact hq4 hcon.1.symm),
            genWrites_getD _ _ _ _ _ _ _ (by rw [hl1]; omega)]
          by_cases hq3 : nb - 2 - sblk + 2 ≤ q
          · rw [if_pos (by omega),
              (by omega : 0 + (q - (nb - 2 - sblk + 2)) = q - (nb - 2 - sblk + 2)),
              mod_cast_wrap (by omega) (by omega),
              (by omega : sblk + q - nb = q - (nb - 2 - sblk + 2)),
              mod_cast_wrap (by omega) (by omega),
              (by omega : sblk + q + 1 - nb = q - (nb - 2 - sblk + 2) + 1)]
          · rw [if_neg (by omega), getD_set]
            by_cases hq2 : q = nb - 2 - sblk + 1
            · subst hq2
              have e1 : sblk + (nb - 2 - sblk + 1) + 1 = nb := by omega
              have e2 : sblk + (nb - 2 - sblk + 1) = nb - 1 := by omega
              rw [if_pos ⟨rfl, by rw [hl0a]; omega⟩, e1, Nat.mod_self, e2,
                mod_cast_lt (by omega)]
            · rw [if_neg (by intro hcon; exact hq2 hcon.1.symm), getD_set]
              by_cases hq1 : q = nb - 2 - sblk
              · subst hq1
                have e1 : sblk + (nb - 2 - sblk) + 1 = nb - 1 := by omega
                have e2 : sblk + (nb - 2 - sblk) = nb - 2 := by omega
                rw [if_pos ⟨rfl, by rw [hl0]; omega⟩, e1, e2,
                  mod_cast_lt (by omega), mod_cast_lt (by omega)]
              · rw [if_neg (by intro hcon; exact hq1 hcon.1.symm),
                  genWrites_getD _ _ _ _ _ _ _ (by rw [hout]; omega),
                  if_pos (by omega),
                  (by omega : sblk + (q - 0) = sblk + q),
                  mod_cast_lt (by omega), mod_cast_lt (by omega)]
    · -- unaligned start: the wrap event performs a double write
      by_cases hU3 : sblk = 0
      · -- start at the bottom of block 0: the wrap event also closes the loop
        rw [hU3] at hrunA ⊢
        rw [(by omega : nb - 2 - 0 = nb - 2)] at hrunA
        have hiterE3 : ∀ o : List Nat,
            rotIter B nb 0 0 sbit (nb - 2) (nb - 2) sbit o =
            (nb, 0, sbit,
              (o.set (nb - 2) (win (B.getD (nb - 2) 0) (B.getD (nb - 1) 0) sbit)).set
                (nb - 1) (win (B.getD (nb - 1) 0) (B.getD 0 0) sbit)) := by
          intro o
          have c1 : ¬(64 ≤ sbit) := by omega
          have c2 : ¬(nb - 2 = nb - 1) := by omega
          have c3 : ¬(nb - 2 + 1 = nb) := by omega
          have c4 : nb - 2 + 1 = nb - 1 := by omega
          have c5 : ¬(nb - 1 = 0) := by omega
          have c8 : nb - 1 + 1 = nb := by omega
          have c9 : ¬(nb - 1 = nb) := by omega
          have cA : compl64 (shl64 allOnes64 (ssub 0 sbit)) = allOnes64 :=
            compl_shl_allOnes_wrap sbit hU2 (by omega)
          have cB : shr64 (B[nb - 1]?.getD 0) sbit &&& allOnes64 =
              B[nb - 1]?.getD 0 >>> sbit :=
            shr64_and_allOnes _ _ (by simpa using hBq (nb - 1)) (by omega)
          unfold rotIter rotClose win
          simp [c1, c2, c3, c4, c5, c8, c9, hU2, cA, cB]
        rw [hrunA, rotGo_eval _ _ _ _ _ _ _ _ _ _ (by omega) (by omega), hiterE3]
        dsimp only
        rw [rotGo_exit _ _ _ _ _ _ _ _ _ _ (by omega)]
        have hl0 : (genWrites B out0 0 0 sbit (nb - 2)).length = nb := by
          rw [genWrites_length]; exact hout
        have hl0a : ((genWrites B out0 0 0 sbit (nb - 2)).set (nb - 2)
            (win (B.getD (nb - 2) 0) (B.getD (nb - 1) 0) sbit)).length = nb := by
          rw [List.length_set]; exact hl0
        constructor
        · rw [List.length_set]; exact hl0a
        · intro q hq
          rw [getD_set]
          by_cases hq2 : q = nb - 1
          · subst hq2
            rw [if_pos ⟨rfl, by rw [hl0a]; omega⟩,
              (by omega : 0 + (nb - 1) = nb - 1),
              mod_cast_lt (by omega), (by omega : nb - 1 + 1 = nb), Nat.mod_self]
          · rw [if_neg (by intro hcon; exact hq2 hcon.1.symm), getD_set]
            by_cases hq1 : q = nb - 2
            · subst hq1
              rw [if_pos ⟨rfl, by rw [hl0]; omega⟩,
                (by omega : 0 + (nb - 2) = nb - 2),
                mod_cast_lt (by omega), (by omega : nb - 2 + 1 = nb - 1),
                mod_cast_lt (by omega)]
            · rw [if_neg (by intro hcon; exact hq1 hcon.1.symm),
                genWrites_getD _ _ _ _ _ _ _ (by rw [hout]; omega),
                if_pos (by omega),
                (by omega : 0 + (q - 0) = q),
                (by omega : 0 + q = q),
                mod_cast_lt (by omega), mod_cast_lt (by omega)]
      · -- start strictly inside: double-write event, then B-run, then closing
        have hsblk1 : 1 ≤ sblk := by omega
        have hiterE4 : ∀ o : List Nat,
            rotIter B nb 0 sblk sbit (nb - 2 - sblk) (nb - 2) sbit o =
            (nb - 2 - sblk + 2, 0, sbit,
              (o.set (nb - 2 - sblk)
                  (win (B.getD (nb - 2) 0) (B.getD (nb - 1) 0) sbit)).set
                (nb - 2 - sblk + 1) (win (B.getD (nb - 1) 0) (B.getD 0 0) sbit)) := by
          intro o
          have c1 : ¬(64 ≤ sbit) := by omega
          have c2 : ¬(nb - 2 = nb - 1) := by omega
          have c3 : ¬(nb - 2 + 1 = nb) := by omega
          have c4 : nb - 2 + 1 = nb - 1 := by omega
          have c5 : nb - 1 ≠ sblk := by omega
          have c6 : ¬((0 : Nat) = sblk) := by omega
          have c7 : nb - 2 - sblk + 1 + 1 = nb - 2 - sblk + 2 := by omega
          have c9 : ¬(nb - 1 = nb) := by omega
          have cA : compl64 (shl64 allOnes64 (ssub 0 sbit)) = allOnes64 :=
            compl_shl_allOnes_wrap sbit hU2 (by omega)
          have cB : shr64 (B[nb - 1]?.getD 0) sbit &&& allOnes64 =
              B[nb - 1]?.getD 0 >>> sbit :=
            shr64_and_allOnes _ _ (by simpa using hBq (nb - 1)) (by omega)
          unfold rotIter rotClose win
          simp [c1, c2, c3, c4, c5, c6, c7, c9, hU2, cA, cB]
        have hrunB := rotGo_run B nb 0 sblk sbit (sblk - 1) (sblk + 1)
          (nb - 2 - sblk + 2) 0 sbit
          (((genWrites B out0 0 sblk sbit (nb - 2 - sblk)).set (nb - 2 - sblk)
              (win (B.getD (nb - 2) 0) (B.getD (nb - 1) 0) sbit)).set (nb - 2 - sblk + 1)
              (win (B.getD (nb - 1) 0) (B.getD 0 0) sbit))
          (by omega) (by intro i hi; omega) (by intro i hi hcon; omega)
          (by intro i hi; omega) (by intro i hi; omega) (by intro i hi; omega)
        rw [(by omega : 0 + (sblk - 1) = sblk - 1),
          (by omega : nb - 2 - sblk + 2 + (sblk - 1) = nb - 1),
          (by omega : sblk + 1 - (sblk - 1) = 2)] at hrunB
        have hiterE4c : ∀ o : List Nat,
            rotIter B nb 0 sblk sbit (nb - 1) (sblk - 1) sbit o =
            (nb, sblk, sbit,
              o.set (nb - 1) (win (B.getD (sblk - 1) 0) (B.getD sblk 0) sbit)) := by
          intro o
          have c1 : ¬(64 ≤ sbit) := by omega
          have c2 : ¬(sblk - 1 = nb - 1) := by omega
          have c3 : ¬(sblk - 1 + 1 = nb) := by omega
          have c4 : sblk - 1 + 1 = sblk := by omega
          have c5 : ¬(sblk = nb - 1) := by omega
          have c6 : nb - 1 + 1 = nb := by omega
          have c7 : ¬(sblk = nb) := by omega
          unfold rotIter rotClose win
          simp [c1, c2, c3, c4, c5, c6, c7, hU2]
        rw [hrunA, rotGo_eval _ _ _ _ _ _ _ _ _ _ (by omega) (by omega), hiterE4]
        dsimp only
        rw [(by omega : sblk + 2 - 1 = sblk + 1), hrunB,
          rotGo_eval _ _ _ _ _ _ _ _ _ _ (by omega) (by omega), hiterE4c]
        dsimp only
        rw [rotGo_exit _ _ _ _ _ _ _ _ _ _ (by omega)]
        have hl0 : (genWrites B out0 0 sblk sbit (nb - 2 - sblk)).length = nb := by
          rw [genWrites_length]; exact hout
        have hl0a : ((genWrites B out0 0 sblk sbit (nb - 2 - sblk)).set (nb - 2 - sblk)
            (win (B.getD (nb - 2) 0) (B.getD (nb - 1) 0) sbit)).length = nb := by
          rw [List.length_set]; exact hl0
        have hl1 : (((genWrites B out0 0 sblk sbit (nb - 2 - sblk)).set (nb - 2 - sblk)
            (win (B.getD (nb - 2) 0) (B.getD (nb - 1) 0) sbit)).set (nb - 2 - sblk + 1)
            (win (B.getD (nb - 1) 0) (B.getD 0 0) sbit)).length = nb := by
          rw [List.length_set]; exact hl0a
        have hl2 : (genWrites B
            (((genWrites B out0 0 sblk sbit (nb - 2 - sblk)).set (nb - 2 - sblk)
              (win (B.getD (nb - 2) 0) (B.getD (nb - 1) 0) sbit)).set (nb - 2 - sblk + 1)
              (win (B.getD (nb - 1) 0) (B.getD 0 0) sbit)) (nb - 2 - sblk + 2) 0 sbit
            (sblk - 1)).length = nb := by
          rw [genWrites_length]; exact hl1
        constructor
        · rw [List.length_set]; exact hl2
        · intro q hq
          rw [getD_set]
          by_cases hq4 : q = nb - 1
          · subst hq4
            rw [if_pos ⟨rfl, by rw [hl2]; omega⟩,
              mod_cast_wrap (by omega) (by omega),
              (by omega : sblk + (nb - 1) - nb = sblk - 1),
              mod_cast_wrap (by omega) (by omega),
              (by omega : sblk + (nb - 1) + 1 - nb = sblk)]
          · rw [if_neg (by intro hcon; exact hq4 hcon.1.symm),
              genWrites_getD _ _ _ _ _ _ _ (by rw [hl1]; omega)]
            by_cases hq3 : nb - 2 - sblk + 2 ≤ q
            · rw [if_pos (by omega),
                (by omega : 0 + (q - (nb - 2 - sblk + 2)) = q - (nb - 2 - sblk + 2)),
                mod_cast_wrap (by omega) (by omega),
                (by omega : sblk + q - nb = q - (nb - 2 - sblk + 2)),
                mod_cast_wrap (by omega) (by omega),
                (by omega : sblk + q + 1 - nb = q - (nb - 2 - sblk + 2) + 1)]
            · rw [if_neg (by omega), getD_set]
              by_cases hq2 : q = nb - 2 - sblk + 1
              · subst hq2
                have e1 : sblk + (nb - 2 - sblk + 1) + 1 = nb := by omega
                have e2 : sblk + (nb - 2 - sblk + 1) = nb - 1 := by omega
                rw [if_pos ⟨rfl, by rw [hl0a]; omega⟩, e1, Nat.mod_self, e2,
                  mod_cast_lt (by omega)]
              · rw [if_neg (by intro hcon; exact hq2 hcon.1.symm), getD_set]
                by_cases hq1 : q = nb - 2 - sblk
                · subst hq1
                  have e1 : sblk + (nb - 2 - sblk) + 1 = nb - 1 := by omega
                  have e2 : sblk + (nb - 2 - sblk) = nb - 2 := by omega
                  rw [if_pos ⟨rfl, by rw [hl0]; omega⟩, e1, e2,
                    mod_cast_lt (by omega), mod_cast_lt (by omega)]
                · rw [if_neg (by intro hcon; exact hq1 hcon.1.symm),
                    genWrites_getD _ _ _ _ _ _ _ (by rw [hout]; omega),
                    if_pos (by omega),
                    (by omega : sblk + (q - 0) = sblk + q),
                    mod_cast_lt (by omega), mod_cast_lt (by omega)]

/-! ### Rotate-loop traversal: partial last block (`lb ≠ 0`), start inside it -/

set_option maxHeartbeats 1000000 in
theorem rotGo_V1_blocks (B out0 : List Nat) (nb lb sblk sbit : Nat)
    (hBq : ∀ q, B.getD q 0 < 2 ^ 64) (hout : out0.length = nb)
    (hnb : 2 ≤ nb) (hlb1 : 1 ≤ lb) (hlb2 : lb ≤ 63)
    (hsblk : sblk = nb - 1) (hsbit : sbit < lb) :
    (rotGo B nb lb sblk sbit nb 0 sblk sbit out0).length = nb ∧
    (rotGo B nb lb sblk sbit nb 0 sblk sbit out0).getD 0 0 =
      (B.getD (nb - 1) 0 >>> sbit ||| shl64 (B.getD 0 0) (lb - sbit)) ∧
    (∀ q, 1 ≤ q → q ≤ nb - 2 →
      (rotGo B nb lb sblk sbit nb 0 sblk sbit out0).getD q 0 =
        win (B.getD (q - 1) 0) (B.getD q 0) (64 - (lb - sbit))) ∧
    (rotGo B nb lb sblk sbit nb 0 sblk sbit out0).getD (nb - 1) 0 =
      ((B.getD (nb - 2) 0 >>> (64 - (lb - sbit))) |||
        (shl64 (B.getD (nb - 1) 0) (lb - sbit) &&& (allOnes64 >>> (64 - lb)))) &&&
        compl64 (shl64 allOnes64 lb) := by
  subst hsblk
  have f1 : ssub lb sbit = lb - sbit := ssub_of_le (by omega)
  have f2 : ssub 64 (lb - sbit) = 64 - (lb - sbit) := ssub_of_le (by omega)
  have f3 : ssub 64 (64 - (lb - sbit)) = lb - sbit := by
    rw [ssub_of_le (by omega)]; omega
  have hiter1 : ∀ o : List Nat, rotIter B nb lb (nb - 1) sbit 0 (nb - 1) sbit o =
      (1, 0, 64 - (lb - sbit),
        o.set 0 (B.getD (nb - 1) 0 >>> sbit ||| shl64 (B.getD 0 0) (lb - sbit))) := by
    intro o
    have c1 : ¬(64 ≤ sbit) := by omega
    have c2 : ¬(lb = 0) := by omega
    have c3 : nb - 1 + 1 = nb := by omega
    have c4 : ¬(0 = nb - 1) := by omega
    have c5 : ¬(64 - (lb - sbit) = 0) := by omega
    unfold rotIter rotClose
    simp [c1, c2, c3, c4, c5, f1, f2, f3]
  have hrun := rotGo_run B nb lb (nb - 1) sbit (nb - 2) (nb - 1) 1 0
    (64 - (lb - sbit))
    (out0.set 0 (B.getD (nb - 1) 0 >>> sbit ||| shl64 (B.getD 0 0) (lb - sbit)))
    (by omega) (by intro i hi; omega) (by intro i hi hcon; omega)
    (by intro i hi; omega) (by intro i hi; omega) (by intro i hi; omega)
  rw [(by omega : 1 + (nb - 2) = nb - 1), (by omega : 0 + (nb - 2) = nb - 2),
    (by omega : nb - 1 - (nb - 2) = 1)] at hrun
  have hiterC : ∀ o : List Nat,
      rotIter B nb lb (nb - 1) sbit (nb - 1) (nb - 2) (64 - (lb - sbit)) o =
      (nb, nb - 1, 64 - (lb - sbit),
        o.set (nb - 1)
          (((B.getD (nb - 2) 0 >>> (64 - (lb - sbit))) |||
            (shl64 (B.getD (nb - 1) 0) (lb - sbit) &&& (allOnes64 >>> (64 - lb)))) &&&
            compl64 (shl64 allOnes64 lb))) := by
    intro o
    have c1 : ¬(64 ≤ 64 - (lb - sbit)) := by omega
    have c2 : ¬(sbit = 64 - (lb - sbit)) := by omega
    have c3 : ¬(nb - 2 + 1 = nb) := by omega
    have c4 : nb - 2 + 1 = nb - 1 := by omega
    have c5 : ¬(64 - (lb - sbit) = 0) := by omega
    have c6 : sbit ≤ 64 - (lb - sbit) := by omega
    have c7 : ¬(lb = 0) := by omega
    have c8 : nb - 1 + 1 = nb := by omega
    have c9 : ¬(nb - 1 = nb) := by omega
    unfold rotIter rotClose
    simp [c1, c2, c3, c4, c5, c6, c7, c8, c9, f3]
  rw [rotGo_eval _ _ _ _ _ _ _ _ _ _ (by omega) (by omega), hiter1]
  dsimp only
  rw [hrun, rotGo_eval _ _ _ _ _ _ _ _ _ _ (by omega) (by omega), hiterC]
  dsimp only
  rw [(by omega : (1 : Nat) - 1 = 0), rotGo_zero]
  have hl1 : (out0.set 0
      (B.getD (nb - 1) 0 >>> sbit ||| shl64 (B.getD 0 0) (lb - sbit))).length = nb := by
    rw [List.length_set]; exact hout
  have hl2 : (genWrites B (out0.set 0
      (B.getD (nb - 1) 0 >>> sbit ||| shl64 (B.getD 0 0) (lb - sbit))) 1 0
      (64 - (lb - sbit)) (nb - 2)).length = nb := by
    rw [genWrites_length]; exact hl1
  refine ⟨by rw [List.length_set]; exact hl2, ?_, ?_, ?_⟩
  · rw [getD_set, if_neg (by intro hcon; omega),
      genWrites_getD _ _ _ _ _ _ _ (by rw [hl1]; omega), if_neg (by omega),
      getD_set, if_pos ⟨rfl, by rw [hout]; omega⟩]
  · intro q hq1 hq2
    rw [getD_set, if_neg (by intro hcon; omega),
      genWrites_getD _ _ _ _ _ _ _ (by rw [hl1]; omega), if_pos (by omega),
      (by omega : 0 + (q - 1) = q - 1), (by omega : q - 1 + 1 = q)]
  · rw [getD_set, if_pos ⟨rfl, by rw [hl2]; omega⟩]

set_option maxHeartbeats 1000000 in
theorem rotGo_V2a_blocks (B out0 : List Nat) (nb lb sbit : Nat)
    (hBq : ∀ q, B.getD q 0 < 2 ^ 64) (hout : out0.length = nb)
    (hnb : 2 ≤ nb) (hlb1 : 1 ≤ lb) (hlb2 : lb ≤ 63)
    (hsbit1 : 1 ≤ sbit) (hsbit : sbit ≤ lb) :
    (rotGo B nb lb 0 sbit nb 0 0 sbit out0).length = nb ∧
    (∀ q, q ≤ nb - 2 →
      (rotGo B nb lb 0 sbit nb 0 0 sbit out0).getD q 0 =
        win (B.getD q 0) (B.getD (q + 1) 0) sbit) ∧
    (rotGo B nb lb 0 sbit nb 0 0 sbit out0).getD (nb - 1) 0 =
      ((shr64 (B.getD (nb - 1) 0) sbit &&& compl64 (shl64 allOnes64 (lb - sbit))) |||
        (shl64 (B.getD 0 0) (lb - sbit) &&& (allOnes64 >>> (64 - lb)))) &&&
        compl64 (shl64 allOnes64 lb) := by
  have f1 : ssub lb sbit = lb - sbit := ssub_of_le (by omega)
  have f2 : ssub 64 (lb - sbit) = 64 - (lb - sbit) := ssub_of_le (by omega)
  have f3 : ssub 64 (64 - (lb - sbit)) = lb - sbit := by
    rw [ssub_of_le (by omega)]; omega
  have hrunA := rotGo_run B nb lb 0 sbit (nb - 2) nb 0 0 sbit out0
    (by omega) (by intro i hi; omega) (by intro i hi hcon; omega)
    (by intro i hi; omega) (by intro i hi; omega) (by intro i hi; omega)
  rw [(by omega : 0 + (nb - 2) = nb - 2), (by omega : nb - (nb - 2) = 2)] at hrunA
  have hiterE : ∀ o : List Nat, rotIter B nb lb 0 sbit (nb - 2) (nb - 2) sbit o =
      (nb, 0, 64 - (lb - sbit),
        (o.set (nb - 2) (win (B.getD (nb - 2) 0) (B.getD (nb - 1) 0) sbit)).set (nb - 1)
          (((shr64 (B.getD (nb - 1) 0) sbit &&& compl64 (shl64 allOnes64 (lb - sbit))) |||
            (shl64 (B.getD 0 0) (lb - sbit) &&& (allOnes64 >>> (64 - lb)))) &&&
            compl64 (shl64 allOnes64 lb))) := by
    intro o
    have c1 : ¬(64 ≤ sbit) := by omega
    have c2 : ¬(nb - 2 = nb - 1) := by omega
    have c3 : ¬(nb - 2 + 1 = nb) := by omega
    have c4 : nb - 2 + 1 = nb - 1 := by omega
    have c5 : ¬(nb - 1 = 0) := by omega
    have c6 : sbit ≤ lb := hsbit
    have c7 : ¬(lb = 0) := by omega
    have c8 : nb - 1 + 1 = nb := by omega
    have c9 : ¬(nb - 1 = nb) := by omega
    have c10 : ¬(64 - (lb - sbit) = 0) := by omega
    have c11 : sbit ≤ 64 - (lb - sbit) := by omega
    unfold rotIter rotClose win
    simp [c1, c2, c3, c4, c5, c6, c7, c8, c9, c10, c11, f1, f2, f3]
  rw [hrunA, rotGo_eval _ _ _ _ _ _ _ _ _ _ (by omega) (by omega), hiterE]
  dsimp only
  rw [rotGo_exit _ _ _ _ _ _ _ _ _ _ (by omega)]
  have hl0 : (genWrites B out0 0 0 sbit (nb - 2)).length = nb := by
    rw [genWrites_length]; exact hout
  have hl0a : ((genWrites B out0 0 0 sbit (nb - 2)).set (nb - 2)
      (win (B.getD (nb - 2) 0) (B.getD (nb - 1) 0) sbit)).length = nb := by
    rw [List.length_set]; exact hl0
  refine ⟨by rw [List.length_set]; exact hl0a, ?_, ?_⟩
  · intro q hq
    rw [getD_set, if_neg (by intro hcon; omega), getD_set]
    by_cases hq1 : q = nb - 2
    · subst hq1
      rw [if_pos ⟨rfl, by rw [hl0]; omega⟩, (by omega : nb - 2 + 1 = nb - 1)]
    · rw [if_neg (by intro hcon; exact hq1 hcon.1.symm),
        genWrites_getD _ _ _ _ _ _ _ (by rw [hout]; omega),
        if_pos (by omega), (by omega : 0 + (q - 0) = q)]
  · rw [getD_set, if_pos ⟨rfl, by rw [hl0a]; omega⟩]

set_option maxHeartbeats 1000000 in
theorem rotGo_V3a_blocks (B out0 : List Nat) (nb lb sbit : Nat)
    (hBq : ∀ q, B.getD q 0 < 2 ^ 64) (hout : out0.length = nb)
    (hnb : 2 ≤ nb) (hlb1 : 1 ≤ lb) (hlb2 : lb ≤ 63)
    (hsbit : lb < sbit) (hsbit64 : sbit < 64) :
    (rotGo B nb lb 0 sbit nb 0 0 sbit out0).length = nb ∧
    (∀ q, q < nb - 2 →
      (rotGo B nb lb 0 sbit nb 0 0 sbit out0).getD q 0 =
        win (B.getD q 0) (B.getD (q + 1) 0) sbit) ∧
    (rotGo B nb lb 0 sbit nb 0 0 sbit out0).getD (nb - 2) 0 =
      (win (B.getD (nb - 2) 0) (B.getD (nb - 1) 0) sbit |||
        shl64 (B.getD 0 0) (64 - (sbit - lb))) ∧
    (rotGo B nb lb 0 sbit nb 0 0 sbit out0).getD (nb - 1) 0 =
      shr64 (B.getD 0 0) (sbit - lb) &&& compl64 (shl64 allOnes64 lb) := by
  have g1 : ssub 64 (sbit - lb) = 64 - (sbit - lb) := ssub_of_le (by omega)
  have hrunA := rotGo_run B nb lb 0 sbit (nb - 2) nb 0 0 sbit out0
    (by omega) (by intro i hi; omega) (by intro i hi hcon; omega)
    (by intro i hi; omega) (by intro i hi; omega) (by intro i hi; omega)
  rw [(by omega : 0 + (nb - 2) = nb - 2), (by omega : nb - (nb - 2) = 2)] at hrunA
  have hiterE : ∀ o : List Nat, rotIter B nb lb 0 sbit (nb - 2) (nb - 2) sbit o =
      (nb, 0, sbit - lb,
        (o.set (nb - 2) (win (B.getD (nb - 2) 0) (B.getD (nb - 1) 0) sbit |||
            shl64 (B.getD 0 0) (64 - (sbit - lb)))).set (nb - 1)
          (shr64 (B.getD 0 0) (sbit - lb) &&& compl64 (shl64 allOnes64 lb))) := by
    intro o
    have c1 : ¬(64 ≤ sbit) := by omega
    have c2 : ¬(nb - 2 = nb - 1) := by omega
    have c3 : ¬(nb - 2 + 1 = nb) := by omega
    have c4 : nb - 2 + 1 = nb - 1 := by omega
    have c5 : ¬(nb - 1 = 0) := by omega
    have c6 : ¬(sbit ≤ lb) := by omega
    have c7 : ¬(lb = 0) := by omega
    have c8 : nb - 1 + 1 = nb := by omega
    have c9 : ¬(nb - 1 = nb) := by omega
    have c10 : ¬(sbit - lb = 0) := by omega
    have c11 : ¬(sbit ≤ sbit - lb) := by omega
    have c12 : ¬(sbit = 0) := by omega
    unfold rotIter rotClose win
    simp [c1, c2, c3, c4, c5, c6, c7, c8, c9, c10, c11, c12, g1]
  rw [hrunA, rotGo_eval _ _ _ _ _ _ _ _ _ _ (by omega) (by omega), hiterE]
  dsimp only
  rw [rotGo_exit _ _ _ _ _ _ _ _ _ _ (by omega)]
  have hl0 : (genWrites B out0 0 0 sbit (nb - 2)).length = nb := by
    rw [genWrites_length]; exact hout
  have hl0a : ((genWrites B out0 0 0 sbit (nb - 2)).set (nb - 2)
      (win (B.getD (nb - 2) 0) (B.getD (nb - 1) 0) sbit |||
        shl64 (B.getD 0 0) (64 - (sbit - lb)))).length = nb := by
    rw [List.length_set]; exact hl0
  refine ⟨by rw [List.length_set]; exact hl0a, ?_, ?_, ?_⟩
  · intro q hq
    rw [getD_set, if_neg (by intro hcon; omega), getD_set,
      if_neg (by intro hcon; omega),
      genWrites_getD _ _ _ _ _ _ _ (by rw [hout]; omega),
      if_pos (by omega), (by omega : 0 + (q - 0) = q)]
  · rw [getD_set, if_neg (by intro hcon; omega), getD_set,
      if_pos ⟨rfl, by rw [hl0]; omega⟩]
  · rw [getD_set, if_pos ⟨rfl, by rw [hl0a]; omega⟩]

set_option maxHeartbeats 2000000 in
theorem rotGo_V2b_blocks (B out0 : List Nat) (nb lb sblk sbit : Nat)
    (hBq : ∀ q, B.getD q 0 < 2 ^ 64) (hout : out0.length = nb)
    (hnb : 2 ≤ nb) (hlb1 : 1 ≤ lb) (hlb2 : lb ≤ 63)
    (hsblk1 : 1 ≤ sblk) (hsblk2 : sblk ≤ nb - 2) (hsbit : sbit ≤ lb) :
    (rotGo B nb lb sblk sbit nb 0 sblk sbit out0).length = nb ∧
    (∀ q, q < nb - 2 - sblk →
      (rotGo B nb lb sblk sbit nb 0 sblk sbit out0).getD q 0 =
        win (B.getD (sblk + q) 0) (B.getD (sblk + q + 1) 0) sbit) ∧
    (rotGo B nb lb sblk sbit nb 0 sblk sbit out0).getD (nb - 2 - sblk) 0 =
      win (B.getD (nb - 2) 0) (B.getD (nb - 1) 0) sbit ∧
    (rotGo B nb lb sblk sbit nb 0 sblk sbit out0).getD (nb - 2 - sblk + 1) 0 =
      ((shr64 (B.getD (nb - 1) 0) sbit &&& compl64 (shl64 allOnes64 (lb - sbit))) |||
        shl64 (B.getD 0 0) (lb - sbit)) ∧
    (∀ q, nb - 2 - sblk + 2 ≤ q → q ≤ nb - 2 →
      (rotGo B nb lb sblk sbit nb 0 sblk sbit out0).getD q 0 =
        win (B.getD (q - (nb - 2 - sblk + 2)) 0)
          (B.getD (q - (nb - 2 - sblk + 2) + 1) 0) (64 - (lb - sbit))) ∧
    (rotGo B nb lb sblk sbit nb 0 sblk sbit out0).getD (nb - 1) 0 =
      ((shr64 (B.getD (sblk - 1) 0) (64 - (lb - sbit))) |||
        (shl64 (B.getD sblk 0) (lb - sbit) &&& (allOnes64 >>> (64 - lb)))) &&&
        compl64 (shl64 allOnes64 lb) := by
  have f1 : ssub lb sbit = lb - sbit := ssub_of_le (by omega)
  have f2 : ssub 64 (lb - sbit) = 64 - (lb - sbit) := ssub_of_le (by omega)
  have f3 : ssub 64 (64 - (lb - sbit)) = lb - sbit := by
    rw [ssub_of_le (by omega)]; omega
  have hrunA := rotGo_run B nb lb sblk sbit (nb - 2 - sblk) nb 0 sblk sbit out0
    (by omega) (by intro i hi; omega) (by intro i hi hcon; omega)
    (by intro i hi; omega) (by intro i hi; omega) (by intro i hi; omega)
  rw [(by omega : 0 + (nb - 2 - sblk) = nb - 2 - sblk),
    (by omega : sblk + (nb - 2 - sblk) = nb - 2),
    (by omega : nb - (nb - 2 - sblk) = sblk + 2)] at hrunA
  have hiterE : ∀ o : List Nat, rotIter B nb lb sblk sbit (nb - 2 - sblk) (nb - 2) sbit o =
      (nb - 2 - sblk + 2, 0, 64 - (lb - sbit),
        (o.set (nb - 2 - sblk) (win (B.getD (nb - 2) 0) (B.getD (nb - 1) 0) sbit)).set
          (nb - 2 - sblk + 1)
          ((shr64 (B.getD (nb - 1) 0) sbit &&& compl64 (shl64 allOnes64 (lb - sbit))) |||
            shl64 (B.getD 0 0) (lb - sbit))) := by
    intro o
    have c1 : ¬(64 ≤ sbit) := by omega
    have c2 : ¬(nb - 2 = nb - 1) := by omega
    have c3 : ¬(nb - 2 + 1 = nb) := by omega
    have c4 : nb - 2 + 1 = nb - 1 := by omega
    have c5 : nb - 1 ≠ sblk := by omega
    have c6 : sbit ≤ lb := hsbit
    have c7 : ¬(lb = 0) := by omega
    have c9 : ¬(nb - 1 = nb) := by omega
    have c10 : ¬(64 - (lb - sbit) = 0) := by omega
    have c11 : ¬((0 : Nat) = sblk) := by omega
    have c12 : nb - 2 - sblk + 1 + 1 = nb - 2 - sblk + 2 := by omega
    unfold rotIter rotClose win
    simp [c1, c2, c3, c4, c5, c6, c7, c9, c10, c11, c12, f1, f2, f3]
  have hrunB := rotGo_run B nb lb sblk sbit (sblk - 1) (sblk + 1)
    (nb - 2 - sblk + 2) 0 (64 - (lb - sbit))
    (((genWrites B out0 0 sblk sbit (nb - 2 - sblk)).set (nb - 2 - sblk)
        (win (B.getD (nb - 2) 0) (B.getD (nb - 1) 0) sbit)).set (nb - 2 - sblk + 1)
        ((shr64 (B.getD (nb - 1) 0) sbit &&& compl64 (shl64 allOnes64 (lb - sbit))) |||
          shl64 (B.getD 0 0) (lb - sbit)))
    (by omega) (by intro i hi; omega) (by intro i hi hcon; omega)
    (by intro i hi; omega) (by intro i hi; omega) (by intro i hi; omega)
  rw [(by omega : 0 + (sblk - 1) = sblk - 1),
    (by omega : nb - 2 - sblk + 2 + (sblk - 1) = nb - 1),
    (by omega : sblk + 1 - (sblk - 1) = 2)] at hrunB
  have hiterC : ∀ o : List Nat,
      rotIter B nb lb sblk sbit (nb - 1) (sblk - 1) (64 - (lb - sbit)) o =
      (nb, sblk, 64 - (lb - sbit),
        o.set (nb - 1)
          (((shr64 (B.getD (sblk - 1) 0) (64 - (lb - sbit))) |||
            (shl64 (B.getD sblk 0) (lb - sbit) &&& (allOnes64 >>> (64 - lb)))) &&&
            compl64 (shl64 allOnes64 lb))) := by
    intro o
    have c1 : ¬(sbit = 64 - (lb - sbit)) := by omega
    have c2 : ¬(sblk - 1 = nb - 1) := by omega
    have c3 : ¬(sblk - 1 + 1 = nb) := by omega
    have c4 : sblk - 1 + 1 = sblk := by omega
    have c5 : ¬(sblk = nb - 1) := by omega
    have c6 : ¬(sblk = nb) := by omega
    have c7 : ¬(lb = 0) := by omega
    have c8 : ¬(64 - (lb - sbit) = 0) := by omega
    have c9 : sbit ≤ 64 - (lb - sbit) := by omega
    have c10 : nb - 1 + 1 = nb := by omega
    unfold rotIter rotClose
    simp [c1, c2, c3, c4, c5, c6, c7, c8, c9, c10, f3, shr64]
  rw [hrunA, rotGo_eval _ _ _ _ _ _ _ _ _ _ (by omega) (by omega), hiterE]
  dsimp only
  rw [(by omega : sblk + 2 - 1 = sblk + 1), hrunB,
    rotGo_eval _ _ _ _ _ _ _ _ _ _ (by omega) (by omega), hiterC]
  dsimp only
  rw [rotGo_exit _ _ _ _ _ _ _ _ _ _ (by omega)]
  have hl0 : (genWrites B out0 0 sblk sbit (nb - 2 - sblk)).length = nb := by
    rw [genWrites_length]; exact hout
  have hl0a : ((genWrites B out0 0 sblk sbit (nb - 2 - sblk)).set (nb - 2 - sblk)
      (win (B.getD (nb - 2) 0) (B.getD (nb - 1) 0) sbit)).length = nb := by
    rw [List.length_set]; exact hl0
  have hl1 : (((genWrites B out0 0 sblk sbit (nb - 2 - sblk)).set (nb - 2 - sblk)
      (win (B.getD (nb - 2) 0) (B.getD (nb - 1) 0) sbit)).set (nb - 2 - sblk + 1)
      ((shr64 (B.getD (nb - 1) 0) sbit &&& compl64 (shl64 allOnes64 (lb - sbit))) |||
        shl64 (B.getD 0 0) (lb - sbit))).length = nb := by
    rw [List.length_set]; exact hl0a
  have hl2 : (genWrites B
      (((genWrites B out0 0 sblk sbit (nb - 2 - sblk)).set (nb - 2 - sblk)
        (win (B.getD (nb - 2) 0) (B.getD (nb - 1) 0) sbit)).set (nb - 2 - sblk + 1)
        ((shr64 (B.getD (nb - 1) 0) sbit &&& compl64 (shl64 allOnes64 (lb - sbit))) |||
          shl64 (B.getD 0 0) (lb - sbit))) (nb - 2 - sblk + 2) 0 (64 - (lb - sbit))
      (sblk - 1)).length = nb := by
    rw [genWrites_length]; exact hl1
  refine ⟨by rw [List.length_set]; exact hl2, ?_, ?_, ?_, ?_, ?_⟩
  · intro q hq
    rw [getD_set, if_neg (by intro hcon; omega),
      genWrites_getD _ _ _ _ _ _ _ (by rw [hl1]; omega), if_neg (by omega),
      getD_set, if_neg (by intro hcon; omega),
      getD_set, if_neg (by intro hcon; omega),
      genWrites_getD _ _ _ _ _ _ _ (by rw [hout]; omega),
      if_pos (by omega), (by omega : sblk + (q - 0) = sblk + q)]
  · rw [getD_set, if_neg (by intro hcon; omega),
      genWrites_getD _ _ _ _ _ _ _ (by rw [hl1]; omega), if_neg (by omega),
      getD_set, if_neg (by intro hcon; omega),
      getD_set, if_pos ⟨rfl, by rw [hl0]; omega⟩]
  · rw [getD_set, if_neg (by intro hcon; omega),
      genWrites_getD _ _ _ _ _ _ _ (by rw [hl1]; omega), if_neg (by omega),
      getD_set, if_pos ⟨rfl, by rw [hl0a]; omega⟩]
  · intro q hq1 hq2
    rw [getD_set, if_neg (by intro hcon; omega),
      genWrites_getD _ _ _ _ _ _ _ (by rw [hl1]; omega), if_pos (by omega),
      (by omega : 0 + (q - (nb - 2 - sblk + 2)) = q - (nb - 2 - sblk + 2))]
  · rw [getD_set, if_pos ⟨rfl, by rw [hl2]; omega⟩]

set_option maxHeartbeats 2000000 in
theorem rotGo_V3b_blocks (B out0 : List Nat) (nb lb sblk sbit : Nat)
    (hBq : ∀ q, B.getD q 0 < 2 ^ 64) (hout : out0.length = nb)
    (hnb : 2 ≤ nb) (hlb1 : 1 ≤ lb) (hlb2 : lb ≤ 63)
    (hsblk1 : 1 ≤ sblk) (hsblk2 : sblk ≤ nb - 2)
    (hsbit : lb < sbit) (hsbit64 : sbit < 64) :
    (rotGo B nb lb sblk sbit nb 0 sblk sbit out0).length = nb ∧
    (∀ q, q < nb - 2 - sblk →
      (rotGo B nb lb sblk sbit nb 0 sblk sbit out0).getD q 0 =
        win (B.getD (sblk + q) 0) (B.getD (sblk + q + 1) 0) sbit) ∧
    (rotGo B nb lb sblk sbit nb 0 sblk sbit out0).getD (nb - 2 - sblk) 0 =
      (win (B.getD (nb - 2) 0) (B.getD (nb - 1) 0) sbit |||
        shl64 (B.getD 0 0) (64 - (sbit - lb))) ∧
    (∀ q, nb - 2 - sblk + 1 ≤ q → q ≤ nb - 3 →
      (rotGo B nb lb sblk sbit nb 0 sblk sbit out0).getD q 0 =
        win (B.getD (q - (nb - 2 - sblk + 1)) 0)
          (B.getD (q - (nb - 2 - sblk + 1) + 1) 0) (sbit - lb)) ∧
    (rotGo B nb lb sblk sbit nb 0 sblk sbit out0).getD (nb - 2) 0 =
      (shr64 (B.getD (sblk - 1) 0) (sbit - lb) |||
        shl64 (B.getD sblk 0) (64 - (sbit - lb))) ∧
    (rotGo B nb lb sblk sbit nb 0 sblk sbit out0).getD (nb - 1) 0 =
      shr64 (B.getD sblk 0) (sbit - lb) &&& compl64 (shl64 allOnes64 lb) := by
  have g1 : ssub 64 (sbit - lb) = 64 - (sbit - lb) := ssub_of_le (by omega)
  have hrunA := rotGo_run B nb lb sblk sbit (nb - 2 - sblk) nb 0 sblk sbit out0
    (by omega) (by intro i hi; omega) (by intro i hi hcon; omega)
    (by intro i hi; omega) (by intro i hi; omega) (by intro i hi; omega)
  rw [(by omega : 0 + (nb - 2 - sblk) = nb - 2 - sblk),
    (by omega : sblk + (nb - 2 - sblk) = nb - 2),
    (by omega : nb - (nb - 2 - sblk) = sblk + 2)] at hrunA
  have hiterE : ∀ o : List Nat, rotIter B nb lb sblk sbit (nb - 2 - sblk) (nb - 2) sbit o =
      (nb - 2 - sblk + 1, 0, sbit - lb,
        o.set (nb - 2 - sblk) (win (B.getD (nb - 2) 0) (B.getD (nb - 1) 0) sbit |||
          shl64 (B.getD 0 0) (64 - (sbit - lb)))) := by
    intro o
    have c1 : ¬(64 ≤ sbit) := by omega
    have c2 : ¬(nb - 2 = nb - 1) := by omega
    have c3 : ¬(nb - 2 + 1 = nb) := by omega
    have c4 : nb - 2 + 1 = nb - 1 := by omega
    have c5 : nb - 1 ≠ sblk := by omega
    have c6 : ¬(sbit ≤ lb) := by omega
    have c7 : ¬(lb = 0) := by omega
    have c9 : ¬(nb - 1 = nb) := by omega
    have c10 : ¬(sbit - lb = 0) := by omega
    have c11 : ¬((0 : Nat) = sblk) := by omega
    have c12 : ¬(sbit = 0) := by omega
    unfold rotIter rotClose win
    simp [c1, c2, c3, c4, c5, c6, c7, c9, c10, c11, c12, g1]
  have hrunB := rotGo_run B nb lb sblk sbit (sblk - 1) (sblk + 1)
    (nb - 2 - sblk + 1) 0 (sbit - lb)
    ((genWrites B out0 0 sblk sbit (nb - 2 - sblk)).set (nb - 2 - sblk)
      (win (B.getD (nb - 2) 0) (B.getD (nb - 1) 0) sbit |||
        shl64 (B.getD 0 0) (64 - (sbit - lb))))
    (by omega) (by intro i hi; omega) (by intro i hi hcon; omega)
    (by intro i hi; omega) (by intro i hi; omega) (by intro i hi; omega)
  rw [(by omega : 0 + (sblk - 1) = sblk - 1),
    (by omega : nb - 2 - sblk + 1 + (sblk - 1) = nb - 2),
    (by omega : sblk + 1 - (sblk - 1) = 2)] at hrunB
  have hiterC : ∀ o : List Nat,
      rotIter B nb lb sblk sbit (nb - 2) (sblk - 1) (sbit - lb) o =
      (nb, sblk, sbit - lb,
        (o.set (nb - 2) (shr64 (B.getD (sblk - 1) 0) (sbit - lb) |||
            shl64 (B.getD sblk 0) (64 - (sbit - lb)))).set (nb - 1)
          (shr64 (B.getD sblk 0) (sbit - lb) &&& compl64 (shl64 allOnes64 lb))) := by
    intro o
    have c1 : ¬(sbit = sbit - lb) := by omega
    have c2 : ¬(sblk - 1 = nb - 1) := by omega
    have c3 : ¬(sblk - 1 + 1 = nb) := by omega
    have c4 : sblk - 1 + 1 = sblk := by omega
    have c5 : ¬(sblk = nb - 1) := by omega
    have c6 : ¬(sblk = nb) := by omega
    have c8 : ¬(sbit - lb = 0) := by omega
    have c9 : ¬(sbit ≤ sbit - lb) := by omega
    have c10 : nb - 2 + 1 = nb - 1 := by omega
    have c11 : nb - 1 + 1 = nb := by omega
    unfold rotIter rotClose
    simp [c1, c2, c3, c4, c5, c6, c8, c9, c10, c11, g1, shr64]
  rw [hrunA, rotGo_eval _ _ _ _ _ _ _ _ _ _ (by omega) (by omega), hiterE]
  dsimp only
  rw [(by omega : sblk + 2 - 1 = sblk + 1), hrunB,
    rotGo_eval _ _ _ _ _ _ _ _ _ _ (by omega) (by omega), hiterC]
  dsimp only
  rw [rotGo_exit _ _ _ _ _ _ _ _ _ _ (by omega)]
  have hl0 : (genWrites B out0 0 sblk sbit (nb - 2 - sblk)).length = nb := by
    rw [genWrites_length]; exact hout
  have hl0a : ((genWrites B out0 0 sblk sbit (nb - 2 - sblk)).set (nb - 2 - sblk)
      (win (B.getD (nb - 2) 0) (B.getD (nb - 1) 0) sbit |||
        shl64 (B.getD 0 0) (64 - (sbit - lb)))).length = nb := by
    rw [List.length_set]; exact hl0
  have hl1 : (genWrites B
      ((genWrites B out0 0 sblk sbit (nb - 2 - sblk)).set (nb - 2 - sblk)
        (win (B.getD (nb - 2) 0) (B.getD (nb - 1) 0) sbit |||
          shl64 (B.getD 0 0) (64 - (sbit - lb)))) (nb - 2 - sblk + 1) 0 (sbit - lb)
      (sblk - 1)).length = nb := by
    rw [genWrites_length]; exact hl0a
  have hl2 : ((genWrites B
      ((genWrites B out0 0 sblk sbit (nb - 2 - sblk)).set (nb - 2 - sblk)
        (win (B.getD (nb - 2) 0) (B.getD (nb - 1) 0) sbit |||
          shl64 (B.getD 0 0) (64 - (sbit - lb)))) (nb - 2 - sblk + 1) 0 (sbit - lb)
      (sblk - 1)).set (nb - 2)
      (shr64 (B.getD (sblk - 1) 0) (sbit - lb) |||
        shl64 (B.getD sblk 0) (64 - (sbit - lb)))).length = nb := by
    rw [List.length_set]; exact hl1
  refine ⟨by rw [List.length_set]; exact hl2, ?_, ?_, ?_, ?_, ?_⟩
  · intro q hq
    rw [getD_set, if_neg (by intro hcon; omega),
      getD_set, if_neg (by intro hcon; omega),
      genWrites_getD _ _ _ _ _ _ _ (by rw [hl0a]; omega), if_neg (by omega),
      getD_set, if_neg (by intro hcon; omega),
      genWrites_getD _ _ _ _ _ _ _ (by rw [hout]; omega),
      if_pos (by omega), (by omega : sblk + (q - 0) = sblk + q)]
  · rw [getD_set, if_neg (by intro hcon; omega),
      getD_set, if_neg (by intro hcon; omega),
      genWrites_getD _ _ _ _ _ _ _ (by rw [hl0a]; omega), if_neg (by omega),
      getD_set, if_pos ⟨rfl, by rw [hl0]; omega⟩]
  · intro q hq1 hq2
    rw [getD_set, if_neg (by intro hcon; omega),
      getD_set, if_neg (by intro hcon; omega),
      genWrites_getD _ _ _ _ _ _ _ (by rw [hl0a]; omega), if_pos (by omega),
      (by omega : 0 + (q - (nb - 2 - sblk + 1)) = q - (nb - 2 - sblk + 1))]
  · rw [getD_set, if_neg (by intro hcon; omega),
      getD_set, if_pos ⟨rfl, by rw [hl1]; omega⟩]
  · rw [getD_set, if_pos ⟨rfl, by rw [hl2]; omega⟩]

/-! ### Bit-level reading of the written block shapes -/

theorem testBit_and_mask (x lb u : Nat) (hlb : lb ≤ 63) :
    (x &&& compl64 (shl64 allOnes64 lb)).testBit u =
      (x.testBit u && decide (u < lb)) := by
  rw [Nat.testBit_and, testBit_compl64 _ _ (shl64_lt _ _), testBit_shl64]
  by_cases h1 : u < lb
  · have h64 : u < 64 := by omega
    rw [if_neg (by omega)]
    simp [h1, h64]
  · by_cases h2 : u < 64
    · have h3 : u - lb < 64 := by omega
      rw [if_pos (by omega), testBit_allOnes64]
      simp [h1, h2, h3]
    · rw [if_neg (by omega)]
      simp [h1, h2]

theorem testBit_getD_shiftRight (B : List Nat) (hB : ∀ q, B.getD q 0 < 2 ^ 64)
    (j t u : Nat) :
    ((B.getD j 0) >>> t).testBit u =
      if t + u < 64 then bitOf B (64 * j + (t + u)) else false := by
  rw [Nat.testBit_shiftRight]
  by_cases h : t + u < 64
  · rw [if_pos h, bitOf_block B j (t + u) h]
  · rw [if_neg h]
    exact Nat.testBit_lt_two_pow (lt_of_lt_of_le (hB j)
      (Nat.pow_le_pow_right (by norm_num) (by omega)))

theorem testBit_getD_shl64 (B : List Nat) (j c u : Nat) :
    (shl64 (B.getD j 0) c).testBit u =
      if c ≤ u ∧ u < 64 then bitOf B (64 * j + (u - c)) else false := by
  rw [testBit_shl64]
  by_cases h : c ≤ u ∧ u < 64
  · rw [if_pos h, if_pos h, bitOf_block B j (u - c) (by omega)]
  · rw [if_neg h, if_neg h]

theorem testBit_getD_shr64 (B : List Nat) (hB : ∀ q, B.getD q 0 < 2 ^ 64)
    (j t u : Nat) (ht : t < 64) :
    (shr64 (B.getD j 0) t).testBit u =
      if t + u < 64 then bitOf B (64 * j + (t + u)) else false := by
  rw [shr64_of_lt _ ht]
  exact testBit_getD_shiftRight B hB j t u

theorem testBit_and_low (y lb u : Nat) (hlb : lb ≤ 64) :
    (y &&& (allOnes64 >>> (64 - lb))).testBit u = (y.testBit u && decide (u < lb)) := by
  rw [Nat.testBit_and, Nat.testBit_shiftRight, testBit_allOnes64]
  congr 1
  rw [decide_eq_decide]
  omega

set_option maxHeartbeats 1000000 in
theorem rotGo_V1_bits (B out0 : List Nat) (L nb lb sblk sbit s : Nat)
    (hg : goodBlocks L B = true) (hlen : B.length = nb) (hout : out0.length = nb)
    (hnb : 2 ≤ nb) (hlb1 : 1 ≤ lb) (hlb2 : lb ≤ 63) (hL : L = 64 * (nb - 1) + lb)
    (hsblk : sblk = nb - 1) (hsbit : sbit < lb) (hs : s = 64 * sblk + sbit) :
    ∀ g, g < 64 * nb →
      bitOf (rotGo B nb lb sblk sbit nb 0 sblk sbit out0) g =
        (if g < L then bitOf B ((g + s) % L) else false) := by
  have hBq : ∀ q, B.getD q 0 < 2 ^ 64 := fun q => goodBlocks_getD_lt B L q hg
  obtain ⟨hl, h0, hmid, hlast⟩ :=
    rotGo_V1_blocks B out0 nb lb sblk sbit hBq hout hnb hlb1 hlb2 hsblk hsbit
  subst hsblk hs hL
  have hpad : ∀ p, 64 * (nb - 1) + lb ≤ p → bitOf B p = false :=
    fun p hp => goodBlocks_bitOf_ge B _ p hg hp
  intro g hg64
  obtain ⟨q, u, hu, rfl⟩ : ∃ q u, u < 64 ∧ g = 64 * q + u :=
    ⟨g / 64, g % 64, Nat.mod_lt _ (by norm_num), by omega⟩
  have hq : q < nb := by omega
  have hbit : bitOf (rotGo B nb lb (nb - 1) sbit nb 0 (nb - 1) sbit out0) (64 * q + u) =
      ((rotGo B nb lb (nb - 1) sbit nb 0 (nb - 1) sbit out0).getD q 0).testBit u := by
    rw [bitOf, (by omega : (64 * q + u) / 64 = q), (by omega : (64 * q + u) % 64 = u)]
  rw [hbit]
  by_cases hq0 : q = 0
  · subst hq0
    rw [h0, Nat.testBit_or, testBit_getD_shiftRight B hBq, testBit_getD_shl64,
      if_pos (show 64 * 0 + u < 64 * (nb - 1) + lb by omega)]
    by_cases hc : sbit + u < lb
    · rw [if_pos (by omega), if_neg (by omega),
        mod_cast_lt (by omega : 64 * 0 + u + (64 * (nb - 1) + sbit) < 64 * (nb - 1) + lb),
        (by omega : 64 * 0 + u + (64 * (nb - 1) + sbit) = 64 * (nb - 1) + (sbit + u))]
      simp
    · have hfirst : (if sbit + u < 64 then bitOf B (64 * (nb - 1) + (sbit + u)) else false) =
          false := by
        by_cases hc2 : sbit + u < 64
        · rw [if_pos hc2]; exact hpad _ (by omega)
        · rw [if_neg hc2]
      rw [hfirst, Bool.false_or, if_pos ⟨by omega, hu⟩,
        mod_cast_wrap (by omega) (by omega),
        (by omega : 64 * 0 + u + (64 * (nb - 1) + sbit) - (64 * (nb - 1) + lb) =
          64 * 0 + (u - (lb - sbit)))]
  · by_cases hql : q = nb - 1
    · subst hql
      rw [hlast, testBit_and_mask _ _ _ hlb2]
      by_cases hulb : u < lb
      · rw [Nat.testBit_or, testBit_getD_shiftRight B hBq,
          testBit_and_low _ _ _ (by omega), testBit_getD_shl64]
        by_cases hc : sbit + u < lb
        · rw [if_pos (by omega), if_neg (by omega : ¬(lb - sbit ≤ u ∧ u < 64)),
            if_pos (by omega : 64 * (nb - 1) + u < 64 * (nb - 1) + lb),
            mod_cast_wrap (by omega) (by omega),
            (by omega : 64 * (nb - 1) + u + (64 * (nb - 1) + sbit) -
              (64 * (nb - 1) + lb) = 64 * (nb - 2) + (64 - (lb - sbit) + u))]
          simp [hulb]
        · rw [if_neg (by omega), if_pos ⟨by omega, hu⟩,
            if_pos (by omega : 64 * (nb - 1) + u < 64 * (nb - 1) + lb),
            mod_cast_wrap (by omega) (by omega),
            (by omega : 64 * (nb - 1) + u + (64 * (nb - 1) + sbit) -
              (64 * (nb - 1) + lb) = 64 * (nb - 1) + (u - (lb - sbit)))]
          simp [hulb]
      · rw [if_neg (by omega)]
        simp [hulb]
    · rw [hmid q (by omega) (by omega),
        (show win (B.getD (q - 1) 0) (B.getD q 0) (64 - (lb - sbit)) =
          win (B.getD (q - 1) 0) (B.getD (q - 1 + 1) 0) (64 - (lb - sbit)) by
          rw [(by omega : q - 1 + 1 = q)]),
        testBit_win_bitOf B (q - 1) (64 - (lb - sbit)) u hBq (by omega) hu,
        if_pos (by omega : 64 * q + u < 64 * (nb - 1) + lb),
        mod_cast_wrap (by omega) (by omega),
        (by omega : 64 * q + u + (64 * (nb - 1) + sbit) - (64 * (nb - 1) + lb) =
          64 * (q - 1) + (64 - (lb - sbit)) + u)]

theorem testBit_getD_shr64_le (B : List Nat) (hB : ∀ q, B.getD q 0 < 2 ^ 64)
    (j t u : Nat) (ht : t ≤ 64) :
    (shr64 (B.getD j 0) t).testBit u =
      if t + u < 64 then bitOf B (64 * j + (t + u)) else false := by
  rcases Nat.lt_or_ge t 64 with h | h
  · exact testBit_getD_shr64 B hB j t u h
  · unfold shr64
    rw [if_pos (by omega), if_neg (by omega)]
    exact Nat.zero_testBit u

set_option maxHeartbeats 1000000 in
theorem rotGo_V2a_bits (B out0 : List Nat) (L nb lb sbit s : Nat)
    (hg : goodBlocks L B = true) (hlen : B.length = nb) (hout : out0.length = nb)
    (hnb : 2 ≤ nb) (hlb1 : 1 ≤ lb) (hlb2 : lb ≤ 63) (hL : L = 64 * (nb - 1) + lb)
    (hsbit1 : 1 ≤ sbit) (hsbit : sbit ≤ lb) (hs : s = sbit) :
    ∀ g, g < 64 * nb →
      bitOf (rotGo B nb lb 0 sbit nb 0 0 sbit out0) g =
        (if g < L then bitOf B ((g + s) % L) else false) := by
  have hBq : ∀ q, B.getD q 0 < 2 ^ 64 := fun q => goodBlocks_getD_lt B L q hg
  obtain ⟨hl, hmain, hlast⟩ :=
    rotGo_V2a_blocks B out0 nb lb sbit hBq hout hnb hlb1 hlb2 hsbit1 hsbit
  subst hL
  intro g hg64
  rw [hs]
  obtain ⟨q, u, hu, rfl⟩ : ∃ q u, u < 64 ∧ g = 64 * q + u :=
    ⟨g / 64, g % 64, Nat.mod_lt _ (by norm_num), by omega⟩
  have hq : q < nb := by omega
  have hbit : bitOf (rotGo B nb lb 0 sbit nb 0 0 sbit out0) (64 * q + u) =
      ((rotGo B nb lb 0 sbit nb 0 0 sbit out0).getD q 0).testBit u := by
    rw [bitOf, (by omega : (64 * q + u) / 64 = q), (by omega : (64 * q + u) % 64 = u)]
  rw [hbit]
  by_cases hql : q = nb - 1
  · subst hql
    rw [hlast, testBit_and_mask _ _ _ hlb2]
    by_cases hulb : u < lb
    · rw [Nat.testBit_or, testBit_and_mask _ _ _ (by omega),
        testBit_getD_shr64 B hBq _ _ _ (by omega),
        testBit_and_low _ _ _ (by omega), testBit_getD_shl64]
      by_cases hc : sbit + u < lb
      · rw [if_pos (by omega), if_neg (by omega : ¬(lb - sbit ≤ u ∧ u < 64)),
          if_pos (by omega : 64 * (nb - 1) + u < 64 * (nb - 1) + lb),
          mod_cast_lt (by omega),
          (by omega : 64 * (nb - 1) + u + sbit = 64 * (nb - 1) + (sbit + u))]
        have hul : u < lb - sbit := by omega
        simp [hul, hulb]
      · have hfirst : ((if sbit + u < 64 then bitOf B (64 * (nb - 1) + (sbit + u))
            else false) && decide (u < lb - sbit)) = false := by
          simp [show ¬(u < lb - sbit) by omega]
        rw [hfirst, Bool.false_or, if_pos ⟨by omega, hu⟩,
          if_pos (by omega : 64 * (nb - 1) + u < 64 * (nb - 1) + lb),
          mod_cast_wrap (by omega) (by omega),
          (by omega : 64 * (nb - 1) + u + sbit - (64 * (nb - 1) + lb) =
            64 * 0 + (u - (lb - sbit)))]
        simp [hulb]
    · rw [if_neg (by omega)]
      simp [hulb]
  · rw [hmain q (by omega), testBit_win_bitOf B q sbit u hBq (by omega) hu,
      if_pos (by omega : 64 * q + u < 64 * (nb - 1) + lb),
      mod_cast_lt (by omega),
      (by omega : 64 * q + u + sbit = 64 * q + sbit + u)]

set_option maxHeartbeats 1000000 in
theorem rotGo_V3a_bits (B out0 : List Nat) (L nb lb sbit s : Nat)
    (hg : goodBlocks L B = true) (hlen : B.length = nb) (hout : out0.length = nb)
    (hnb : 2 ≤ nb) (hlb1 : 1 ≤ lb) (hlb2 : lb ≤ 63) (hL : L = 64 * (nb - 1) + lb)
    (hsbit : lb < sbit) (hsbit64 : sbit < 64) (hs : s = sbit) :
    ∀ g, g < 64 * nb →
      bitOf (rotGo B nb lb 0 sbit nb 0 0 sbit out0) g =
        (if g < L then bitOf B ((g + s) % L) else false) := by
  have hBq : ∀ q, B.getD q 0 < 2 ^ 64 := fun q => goodBlocks_getD_lt B L q hg
  obtain ⟨hl, hmain, hseam, hlast⟩ :=
    rotGo_V3a_blocks B out0 nb lb sbit hBq hout hnb hlb1 hlb2 hsbit hsbit64
  subst hL
  have hpad : ∀ p, 64 * (nb - 1) + lb ≤ p → bitOf B p = false :=
    fun p hp => goodBlocks_bitOf_ge B _ p hg hp
  intro g hg64
  obtain ⟨q, u, hu, rfl⟩ : ∃ q u, u < 64 ∧ g = 64 * q + u :=
    ⟨g / 64, g % 64, Nat.mod_lt _ (by norm_num), by omega⟩
  have hq : q < nb := by omega
  have hbit : bitOf (rotGo B nb lb 0 sbit nb 0 0 sbit out0) (64 * q + u) =
      ((rotGo B nb lb 0 sbit nb 0 0 sbit out0).getD q 0).testBit u := by
    rw [bitOf, (by omega : (64 * q + u) / 64 = q), (by omega : (64 * q + u) % 64 = u)]
  rw [hbit, hs]
  by_cases hql : q = nb - 1
  · subst hql
    rw [hlast, testBit_and_mask _ _ _ hlb2]
    by_cases hulb : u < lb
    · rw [testBit_getD_shr64 B hBq _ _ _ (by omega), if_pos (by omega),
        if_pos (by omega : 64 * (nb - 1) + u < 64 * (nb - 1) + lb),
        mod_cast_wrap (by omega) (by omega),
        (by omega : 64 * (nb - 1) + u + sbit - (64 * (nb - 1) + lb) =
          64 * 0 + (sbit - lb + u))]
      simp [hulb]
    · rw [if_neg (by omega)]
      simp [hulb]
  · by_cases hqs : q = nb - 2
    · subst hqs
      rw [hseam, Nat.testBit_or,
        (show win (B.getD (nb - 2) 0) (B.getD (nb - 1) 0) sbit =
          win (B.getD (nb - 2) 0) (B.getD (nb - 2 + 1) 0) sbit by
          rw [(by omega : nb - 2 + 1 = nb - 1)]),
        testBit_win_bitOf B (nb - 2) sbit u hBq (by omega) hu,
        testBit_getD_shl64,
        if_pos (by omega : 64 * (nb - 2) + u < 64 * (nb - 1) + lb)]
      by_cases hc : sbit + u < 64 + lb
      · rw [if_neg (by omega : ¬(64 - (sbit - lb) ≤ u ∧ u < 64)),
          mod_cast_lt (by omega),
          (by omega : 64 * (nb - 2) + u + sbit = 64 * (nb - 2) + sbit + u)]
        simp
      · have hfirst : bitOf B (64 * (nb - 2) + sbit + u) = false :=
          hpad _ (by omega)
        rw [hfirst, Bool.false_or, if_pos ⟨by omega, hu⟩,
          mod_cast_wrap (by omega) (by omega),
          (by omega : 64 * (nb - 2) + u + sbit - (64 * (nb - 1) + lb) =
            64 * 0 + (u - (64 - (sbit - lb))))]
    · rw [hmain q (by omega), testBit_win_bitOf B q sbit u hBq (by omega) hu,
        if_pos (by omega : 64 * q + u < 64 * (nb - 1) + lb),
        mod_cast_lt (by omega),
        (by omega : 64 * q + u + sbit = 64 * q + sbit + u)]

set_option maxHeartbeats 2000000 in
theorem rotGo_V2b_bits (B out0 : List Nat) (L nb lb sblk sbit s : Nat)
    (hg : goodBlocks L B = true) (hlen : B.length = nb) (hout : out0.length = nb)
    (hnb : 2 ≤ nb) (hlb1 : 1 ≤ lb) (hlb2 : lb ≤ 63) (hL : L = 64 * (nb - 1) + lb)
    (hsblk1 : 1 ≤ sblk) (hsblk2 : sblk ≤ nb - 2) (hsbit : sbit ≤ lb)
    (hs : s = 64 * sblk + sbit) :
    ∀ g, g < 64 * nb →
      bitOf (rotGo B nb lb sblk sbit nb 0 sblk sbit out0) g =
        (if g < L then bitOf B ((g + s) % L) else false) := by
  have hBq : ∀ q, B.getD q 0 < 2 ^ 64 := fun q => goodBlocks_getD_lt B L q hg
  obtain ⟨hl, h1, h2, h3, h4, h5⟩ :=
    rotGo_V2b_blocks B out0 nb lb sblk sbit hBq hout hnb hlb1 hlb2 hsblk1 hsblk2 hsbit
  subst hL
  intro g hg64
  obtain ⟨q, u, hu, rfl⟩ : ∃ q u, u < 64 ∧ g = 64 * q + u :=
    ⟨g / 64, g % 64, Nat.mod_lt _ (by norm_num), by omega⟩
  have hq : q < nb := by omega
  have hbit : bitOf (rotGo B nb lb sblk sbit nb 0 sblk sbit out0) (64 * q + u) =
      ((rotGo B nb lb sblk sbit nb 0 sblk sbit out0).getD q 0).testBit u := by
    rw [bitOf, (by omega : (64 * q + u) / 64 = q), (by omega : (64 * q + u) % 64 = u)]
  rw [hbit, hs]
  by_cases hql : q = nb - 1
  · subst hql
    rw [h5, testBit_and_mask _ _ _ hlb2]
    by_cases hulb : u < lb
    · rw [Nat.testBit_or, testBit_getD_shr64_le B hBq _ _ _ (by omega),
        testBit_and_low _ _ _ (by omega), testBit_getD_shl64]
      by_cases hc : sbit + u < lb
      · rw [if_pos (by omega), if_neg (by omega : ¬(lb - sbit ≤ u ∧ u < 64)),
          if_pos (by omega : 64 * (nb - 1) + u < 64 * (nb - 1) + lb),
          mod_cast_wrap (by omega) (by omega),
          (by omega : 64 * (nb - 1) + u + (64 * sblk + sbit) -
            (64 * (nb - 1) + lb) = 64 * (sblk - 1) + (64 - (lb - sbit) + u))]
        simp [hulb]
      · rw [if_neg (by omega), if_pos ⟨by omega, hu⟩,
          if_pos (by omega : 64 * (nb - 1) + u < 64 * (nb - 1) + lb),
          mod_cast_wrap (by omega) (by omega),
          (by omega : 64 * (nb - 1) + u + (64 * sblk + sbit) -
            (64 * (nb - 1) + lb) = 64 * sblk + (u - (lb - sbit)))]
        simp [hulb]
    · rw [if_neg (by omega)]
      simp [hulb]
  · by_cases hq2 : q = nb - 2 - sblk
    · subst hq2
      rw [h2,
        (show win (B.getD (nb - 2) 0) (B.getD (nb - 1) 0) sbit =
          win (B.getD (nb - 2) 0) (B.getD (nb - 2 + 1) 0) sbit by
          rw [(by omega : nb - 2 + 1 = nb - 1)]),
        testBit_win_bitOf B (nb - 2) sbit u hBq (by omega) hu,
        if_pos (by omega : 64 * (nb - 2 - sblk) + u < 64 * (nb - 1) + lb),
        mod_cast_lt (by omega),
        (by omega : 64 * (nb - 2 - sblk) + u + (64 * sblk + sbit) =
          64 * (nb - 2) + sbit + u)]
    · by_cases hq3 : q = nb - 2 - sblk + 1
      · subst hq3
        rw [h3, Nat.testBit_or, testBit_and_mask _ _ _ (by omega),
          testBit_getD_shr64 B hBq _ _ _ (by omega), testBit_getD_shl64]
        by_cases hc : sbit + u < lb
        · rw [if_pos (by omega), if_neg (by omega : ¬(lb - sbit ≤ u ∧ u < 64)),
            if_pos (by omega : 64 * (nb - 2 - sblk + 1) + u < 64 * (nb - 1) + lb),
            mod_cast_lt (by omega),
            (by omega : 64 * (nb - 2 - sblk + 1) + u + (64 * sblk + sbit) =
              64 * (nb - 1) + (sbit + u))]
          have hul : u < lb - sbit := by omega
          simp [hul]
        · have hfirst : ((if sbit + u < 64 then bitOf B (64 * (nb - 1) + (sbit + u))
              else false) && decide (u < lb - sbit)) = false := by
            simp [show ¬(u < lb - sbit) by omega]
          rw [hfirst, Bool.false_or, if_pos ⟨by omega, hu⟩,
            if_pos (by omega : 64 * (nb - 2 - sblk + 1) + u < 64 * (nb - 1) + lb),
            mod_cast_wrap (by omega) (by omega),
            (by omega : 64 * (nb - 2 - sblk + 1) + u + (64 * sblk + sbit) -
              (64 * (nb - 1) + lb) = 64 * 0 + (u - (lb - sbit)))]
      · by_cases hq4 : nb - 2 - sblk + 2 ≤ q
        · rw [h4 q hq4 (by omega),
            testBit_win_bitOf B (q - (nb - 2 - sblk + 2)) (64 - (lb - sbit)) u hBq
              (by omega) hu,
            if_pos (by omega : 64 * q + u < 64 * (nb - 1) + lb),
            mod_cast_wrap (by omega) (by omega),
            (by omega : 64 * q + u + (64 * sblk + sbit) - (64 * (nb - 1) + lb) =
              64 * (q - (nb - 2 - sblk + 2)) + (64 - (lb - sbit)) + u)]
        · rw [h1 q (by omega),
            testBit_win_bitOf B (sblk + q) sbit u hBq (by omega) hu,
            if_pos (by omega : 64 * q + u < 64 * (nb - 1) + lb),
            mod_cast_lt (by omega),
            (by omega : 64 * q + u + (64 * sblk + sbit) = 64 * (sblk + q) + sbit + u)]

set_option maxHeartbeats 2000000 in
theorem rotGo_V3b_bits (B out0 : List Nat) (L nb lb sblk sbit s : Nat)
    (hg : goodBlocks L B = true) (hlen : B.length = nb) (hout : out0.length = nb)
    (hnb : 2 ≤ nb) (hlb1 : 1 ≤ lb) (hlb2 : lb ≤ 63) (hL : L = 64 * (nb - 1) + lb)
    (hsblk1 : 1 ≤ sblk) (hsblk2 : sblk ≤ nb - 2) (hsbit : lb < sbit)
    (hsbit64 : sbit < 64) (hs : s = 64 * sblk + sbit) :
    ∀ g, g < 64 * nb →
      bitOf (rotGo B nb lb sblk sbit nb 0 sblk sbit out0) g =
        (if g < L then bitOf B ((g + s) % L) else false) := by
  have hBq : ∀ q, B.getD q 0 < 2 ^ 64 := fun q => goodBlocks_getD_lt B L q hg
  obtain ⟨hl, h1, h2, h3, h4, h5⟩ :=
    rotGo_V3b_blocks B out0 nb lb sblk sbit hBq hout hnb hlb1 hlb2 hsblk1 hsblk2
      hsbit hsbit64
  subst hL
  have hpad : ∀ p, 64 * (nb - 1) + lb ≤ p → bitOf B p = false :=
    fun p hp => goodBlocks_bitOf_ge B _ p hg hp
  intro g hg64
  obtain ⟨q, u, hu, rfl⟩ : ∃ q u, u < 64 ∧ g = 64 * q + u :=
    ⟨g / 64, g % 64, Nat.mod_lt _ (by norm_num), by omega⟩
  have hq : q < nb := by omega
  have hbit : bitOf (rotGo B nb lb sblk sbit nb 0 sblk sbit out0) (64 * q + u) =
      ((rotGo B nb lb sblk sbit nb 0 sblk sbit out0).getD q 0).testBit u := by
    rw [bitOf, (by omega : (64 * q + u) / 64 = q), (by omega : (64 * q + u) % 64 = u)]
  rw [hbit, hs]
  by_cases hql : q = nb - 1
  · subst hql
    rw [h5, testBit_and_mask _ _ _ hlb2]
    by_cases hulb : u < lb
    · rw [testBit_getD_shr64 B hBq _ _ _ (by omega),
        if_pos (by omega : sbit - lb + u < 64),
        if_pos (by omega : 64 * (nb - 1) + u < 64 * (nb - 1) + lb),
        mod_cast_wrap (by omega) (by omega),
        (by omega : 64 * (nb - 1) + u + (64 * sblk + sbit) -
          (64 * (nb - 1) + lb) = 64 * sblk + (sbit - lb + u))]
      simp [hulb]
    · rw [if_neg (by omega)]
      simp [hulb]
  · by_cases hq4 : q = nb - 2
    · subst hq4
      rw [h4, Nat.testBit_or, testBit_getD_shr64 B hBq _ _ _ (by omega),
        testBit_getD_shl64,
        if_pos (by omega : 64 * (nb - 2) + u < 64 * (nb - 1) + lb)]
      by_cases hc : sbit - lb + u < 64
      · rw [if_pos hc, if_neg (by omega : ¬(64 - (sbit - lb) ≤ u ∧ u < 64)),
          mod_cast_wrap (by omega) (by omega),
          (by omega : 64 * (nb - 2) + u + (64 * sblk + sbit) -
            (64 * (nb - 1) + lb) = 64 * (sblk - 1) + (sbit - lb + u))]
        simp
      · rw [if_neg hc, if_pos ⟨by omega, hu⟩, Bool.false_or,
          mod_cast_wrap (by omega) (by omega),
          (by omega : 64 * (nb - 2) + u + (64 * sblk + sbit) -
            (64 * (nb - 1) + lb) = 64 * sblk + (u - (64 - (sbit - lb))))]
    · by_cases hq2 : q = nb - 2 - sblk
      · subst hq2
        rw [h2, Nat.testBit_or,
          (show win (B.getD (nb - 2) 0) (B.getD (nb - 1) 0) sbit =
            win (B.getD (nb - 2) 0) (B.getD (nb - 2 + 1) 0) sbit by
            rw [(by omega : nb - 2 + 1 = nb - 1)]),
          testBit_win_bitOf B (nb - 2) sbit u hBq (by omega) hu,
          testBit_getD_shl64,
          if_pos (by omega : 64 * (nb - 2 - sblk) + u < 64 * (nb - 1) + lb)]
        by_cases hc : sbit + u < 64 + lb
        · rw [if_neg (by omega : ¬(64 - (sbit - lb) ≤ u ∧ u < 64)),
            mod_cast_lt (by omega),
            (by omega : 64 * (nb - 2 - sblk) + u + (64 * sblk + sbit) =
              64 * (nb - 2) + sbit + u)]
          simp
        · have hfirst : bitOf B (64 * (nb - 2) + sbit + u) = false :=
            hpad _ (by omega)
          rw [hfirst, Bool.false_or, if_pos ⟨by omega, hu⟩,
            mod_cast_wrap (by omega) (by omega),
            (by omega : 64 * (nb - 2 - sblk) + u + (64 * sblk + sbit) -
              (64 * (nb - 1) + lb) = 64 * 0 + (u - (64 - (sbit - lb))))]
      · by_cases hq3 : nb - 2 - sblk + 1 ≤ q
        · rw [h3 q hq3 (by omega),
            testBit_win_bitOf B (q - (nb - 2 - sblk + 1)) (sbit - lb) u hBq
              (by omega) hu,
            if_pos (by omega : 64 * q + u < 64 * (nb - 1) + lb),
            mod_cast_wrap (by omega) (by omega),
            (by omega : 64 * q + u + (64 * sblk + sbit) - (64 * (nb - 1) + lb) =
              64 * (q - (nb - 2 - sblk + 1)) + (sbit - lb) + u)]
        · rw [h1 q (by omega),
            testBit_win_bitOf B (sblk + q) sbit u hBq (by omega) hu,
            if_pos (by omega : 64 * q + u < 64 * (nb - 1) + lb),
            mod_cast_lt (by omega),
            (by omega : 64 * q + u + (64 * sblk + sbit) = 64 * (sblk + q) + sbit + u)]
